import Mathlib

/-!
Verification development for a Rothermel/Albini surface-fire spread
implementation (`model.py`, `rothweights.py`, `albini.py`, `nffl.py`,
`fbp.py`).

Modelling conventions (shallow embedding):

* Python floats are modelled as exact rationals `ℚ`.  The transcendental
  library calls (`math.exp`, `math.pow`, `math.sqrt`, `math.tan`) are
  abstracted as an arbitrary bundle of functions `Prims`; every definition
  takes the bundle as a parameter, exactly as the Python code calls into
  `math`.  Theorems therefore hold for every interpretation of the
  transcendental primitives.
* Python `dict`s are insertion-ordered association lists (`Dict`).
  Assignment `d[k] = v` replaces the value in place when the key is
  present and appends otherwise (`Dict.insert`); in-place mutation of a
  looked-up object is `Dict.modify1` (first matching key, as `d[k]`
  aliases the first match).  An association list represents a Python
  dict only when its keys are distinct; theorems about arbitrary complex
  states carry that representation invariant (`RothermelFuelComplex.WF`).
* Divisions the claims exercise as failures (`ZeroDivisionError`,
  `math domain error`, `KeyError`) are modelled with `Except`/checked
  division (`cdiv`).  Divisions that no claim exercises at a zero
  denominator are modelled with total field division (`x / 0 = 0`),
  with the source behaviour noted at the definition.
-/

/-- Interpretation of the `math`-module primitives used by the source:
`exp`, `pow` (real exponent), `sqrt`, `tan`. -/
structure Prims where
  exp : ℚ → ℚ
  rpow : ℚ → ℚ → ℚ
  sqrt : ℚ → ℚ
  tan : ℚ → ℚ

/-- Checked division: Python raises `ZeroDivisionError` on a zero
denominator, otherwise produces the quotient. -/
def cdiv (a b : ℚ) : Except String ℚ :=
  if b = 0 then .error "ZeroDivisionError" else .ok (a / b)

/-- Python dict modelled as an insertion-ordered association list. -/
abbrev Dict (α : Type) := List (String × α)

namespace Dict

/-- Lookup `d[k]` returning the first matching value. -/
def find? {α : Type} : Dict α → String → Option α
  | [], _ => none
  | (k1, v) :: rest, k => if k1 = k then some v else find? rest k

/-- Assignment `d[k] = v`: replace in place when present, append
otherwise (Python dicts preserve insertion order). -/
def insert {α : Type} : Dict α → String → α → Dict α
  | [], k, v => [(k, v)]
  | (k1, v1) :: rest, k, v =>
      if k1 = k then (k, v) :: rest else (k1, v1) :: insert rest k v

/-- In-place mutation of the object stored at the first matching key
(`d[k].mutate(...)` in Python). -/
def modify1 {α : Type} : Dict α → String → (α → α) → Dict α
  | [], _, _ => []
  | (k1, v) :: rest, k, f =>
      if k1 = k then (k1, f v) :: rest else (k1, v) :: modify1 rest k f

/-- Key list of a dict, in insertion order. -/
def keys {α : Type} (d : Dict α) : List String := d.map Prod.fst

/-- Sum of all stored values. -/
def sumVals (d : Dict ℚ) : ℚ := (d.map Prod.snd).sum

/-- Fold `modify1` with a key-dependent mutator over a list of keys, in
order; this is the shape of every mutation loop in the source. -/
def applyAllU {α : Type} (U : String → α → α) : List String → Dict α → Dict α
  | [], d => d
  | k :: ks, d => applyAllU U ks (modify1 d k (U k))

end Dict

/-- Fuel category key `dead`. -/
def DEAD : String := "dead"

/-- Fuel category key `live`. -/
def LIVE : String := "live"

/-- Size-class key `1 hr`. -/
def ONEHR : String := "1 hr"

/-- Size-class key `10 hr`. -/
def TENHR : String := "10 hr"

/-- Size-class key `100 hr`. -/
def HUNDREDHR : String := "100 hr"

/-- State of a `Fuel` object (`model.py`).  Python initialises several
attributes to `None`; fields a claim never reads before assignment are
carried as plain rationals with the post-`__init__` defaults, except
`extMoisture`, which the source genuinely stores as optional at the
particle level (`setFuelMoisture` resets it to `None`). -/
structure Fuel where
  ovendryLoading : ℚ := 0
  sigma : ℚ := 0
  particleDensity : ℚ := 32
  totMineralContent : ℚ := 0.0555
  effMineralContent : ℚ := 0.01
  heatContent : ℚ := 8000
  fuelMoisture : ℚ := 0
  extMoisture : Option ℚ := none
  optimalPacking : ℚ := 0
  maxPotentialVelocity : ℚ := 0
  exponentA : ℚ := 0
  heatingEfficiency : ℚ := 0
  heatOfIgnition : ℚ := 0
  netFuelLoading : ℚ := 0
  bulkDensity : ℚ := 0
  packingRatio : ℚ := 0
deriving DecidableEq

/-- Default (freshly constructed, nothing set) fuel record. -/
def defaultFuel : Fuel := {}

/-- Rothermel eqn 24: net loading `w0 / (1 + s_T)`
(`RothermelNetFuelLoading` in `model.py`). -/
def RothermelNetFuelLoading (loading totMineral : ℚ) : ℚ :=
  loading / (1 + totMineral)

/-- Rothermel eqn 39: `A = 1/(4.77 σ^0.1 − 7.27)`
(`RothermelExponentA` in `model.py`).  The division is modelled as total
field division; no claim exercises the (irrational) zero of the
denominator. -/
def RothermelExponentA (p : Prims) (sigma : ℚ) : ℚ :=
  1 / (4.77 * p.rpow sigma 0.1 - 7.27)

/-- Albini appendix III item 1: net loading `w0 (1 − s_T)`
(`AlbiniNetFuelLoading` in `albini.py`). -/
def AlbiniNetFuelLoading (loading totMineral : ℚ) : ℚ :=
  loading * (1 - totMineral)

/-- Albini appendix III: `A = 133 σ^(−0.7913)`
(`AlbiniExponentA` in `albini.py`). -/
def AlbiniExponentA (p : Prims) (sigma : ℚ) : ℚ :=
  133 * p.rpow sigma (-0.7913)

/-- The two particle-level strategy slots the source injects as class
attributes (`calcNetFuelLoading`, `calcExponentA`). -/
structure FuelStrategy where
  calcNetFuelLoading : ℚ → ℚ → ℚ
  calcExponentA : Prims → ℚ → ℚ

/-- Strategy bundle of `RothermelFuel`. -/
def rothermelStrategy : FuelStrategy :=
  ⟨RothermelNetFuelLoading, RothermelExponentA⟩

/-- Strategy bundle of `AlbiniFuel`. -/
def albiniStrategy : FuelStrategy :=
  ⟨AlbiniNetFuelLoading, AlbiniExponentA⟩

/-- `Fuel.setSigma` (`model.py`).  Stores σ, then computes the optimal
packing ratio (Rothermel eqn 37), the maximum potential reaction
velocity (eqn 36), the exponent A via the injected strategy, and the
heating efficiency (eqn 14).  For σ ≤ 0 the first `math.pow` call
(`3.348 * math.pow(sigma, -0.8189)`) raises `ValueError` (negative base
or zero to a negative power), so no derived geometry is stored. -/
def Fuel.setSigma (A : Prims → ℚ → ℚ) (p : Prims) (sigma : ℚ) (f : Fuel) :
    Except String Fuel :=
  if sigma ≤ 0 then .error "math domain error"
  else
    let sigma15 := p.rpow sigma 1.5
    .ok { f with
      sigma := sigma
      optimalPacking := 3.348 * p.rpow sigma (-0.8189)
      maxPotentialVelocity := sigma15 / (495 + 0.0594 * sigma15)
      exponentA := A p sigma
      heatingEfficiency := p.exp (-138 / sigma) }

/-- `Fuel.setFuelMoisture` (`model.py`): stores both moistures and the
heat of ignition (Rothermel eqn 12).  The extinction argument defaults
to `None` in the source. -/
def Fuel.setFuelMoisture (fuel : ℚ) (extinction : Option ℚ) (f : Fuel) : Fuel :=
  { f with
    extMoisture := extinction
    fuelMoisture := fuel
    heatOfIgnition := 250 + 1116 * fuel }

/-- `Fuel.setMineralContent` (`model.py`). -/
def Fuel.setMineralContent (total eff : ℚ) (f : Fuel) : Fuel :=
  { f with totMineralContent := total, effMineralContent := eff }

/-- `Fuel.setHeatContent` (`model.py`). -/
def Fuel.setHeatContent (heat : ℚ) (f : Fuel) : Fuel :=
  { f with heatContent := heat }

/-- `Fuel.setLoading` (`model.py`). -/
def Fuel.setLoading (loading : ℚ) (f : Fuel) : Fuel :=
  { f with ovendryLoading := loading }

/-- `Fuel.setDensity` (`model.py`): stores both densities and the
packing ratio. -/
def Fuel.setDensity (bulk particle : ℚ) (f : Fuel) : Fuel :=
  { f with
    bulkDensity := bulk
    particleDensity := particle
    packingRatio := bulk / particle }

/-- `Fuel.__init__(sigma, loading)` with both arguments supplied, as the
NFFL factories call it: stores the loading, runs `setSigma` (which can
raise), then applies the default density, mineral-content and
heat-content values. -/
def Fuel.init (A : Prims → ℚ → ℚ) (p : Prims) (sigma loading : ℚ) :
    Except String Fuel := do
  let f0 : Fuel := { defaultFuel with ovendryLoading := loading }
  let f1 ← Fuel.setSigma A p sigma f0
  .ok { f1 with
    particleDensity := 32
    totMineralContent := 0.0555
    effMineralContent := 0.01
    heatContent := 8000 }

/-- State of a `RothermelFuelComplex` (`rothweights.py`), including the
fields an `AlbiniFuelComplex` adds (`wPrime`, `mPrime`).  The Python
object reuses the inherited scalar attribute names for the per-category
dictionaries; here the aggregated per-category maps are typed
separately from the per-complex scalars. -/
structure RothermelFuelComplex where
  fuelParameters : Dict (Dict Fuel) := []
  extMoisture : Dict ℚ := []
  depth : ℚ := 0
  classAreas : Dict (Dict ℚ) := []
  categoryAreas : Dict ℚ := []
  totalArea : ℚ := 0
  classWeighting : Dict (Dict ℚ) := []
  categoryWeighting : Dict ℚ := []
  netFuelLoading : Dict ℚ := []
  heatContent : Dict ℚ := []
  effMineralContent : Dict ℚ := []
  fuelMoisture : Dict ℚ := []
  sigma : ℚ := 0
  packingRatio : ℚ := 0
  bulkDensity : ℚ := 0
  optimalPacking : ℚ := 0
  maxPotentialVelocity : ℚ := 0
  exponentA : ℚ := 0
  heatingEfficiency : ℚ := 0
  wPrime : ℚ := 0
  mPrime : ℚ := 0
deriving DecidableEq

/-- Representation invariant of Python dicts: distinct keys at both
levels of the particle map. -/
def RothermelFuelComplex.WF (c : RothermelFuelComplex) : Prop :=
  (Dict.keys c.fuelParameters).Nodup ∧
    ∀ kv ∈ c.fuelParameters, (Dict.keys kv.2).Nodup

/-- `setFuelParams` (`rothweights.py`): create the category dict when
absent, then assign the class slot. -/
def RothermelFuelComplex.setFuelParams (c : RothermelFuelComplex)
    (category fuelClass : String) (fuel : Fuel) : RothermelFuelComplex :=
  let classes := (Dict.find? c.fuelParameters category).getD []
  { c with fuelParameters :=
      Dict.insert c.fuelParameters category (Dict.insert classes fuelClass fuel) }

/-- `setExtMoisture` (`rothweights.py`). -/
def RothermelFuelComplex.setExtMoisture (c : RothermelFuelComplex)
    (category : String) (moisture : ℚ) : RothermelFuelComplex :=
  { c with extMoisture := Dict.insert c.extMoisture category moisture }

/-- `setDepth` (`rothweights.py`). -/
def RothermelFuelComplex.setDepth (c : RothermelFuelComplex) (depth : ℚ) :
    RothermelFuelComplex :=
  { c with depth := depth }

/-- `setFuelMoisture` (`rothweights.py`): mutates the stored particle via
`Fuel.setFuelMoisture(moisture)` (extinction argument left at `None`);
raises `KeyError` when either key is missing. -/
def RothermelFuelComplex.setFuelMoisture (c : RothermelFuelComplex)
    (category sizeClass : String) (moisture : ℚ) :
    Except String RothermelFuelComplex :=
  match Dict.find? c.fuelParameters category with
  | none => .error "KeyError"
  | some classes =>
    match Dict.find? classes sizeClass with
    | none => .error "KeyError"
    | some _ =>
      let fp := Dict.modify1 c.fuelParameters category
        (fun d => Dict.modify1 d sizeClass (Fuel.setFuelMoisture moisture none))
      .ok { c with fuelParameters := fp }

/-- Rothermel eqn 53 (`calcMeanSurfaceAreaOneClass`): mean surface area
of one size class, `σ w0 / ρp`; Python raises `ZeroDivisionError` on a
zero particle density. -/
def calcMeanSurfaceAreaOneClass (f : Fuel) : Except String ℚ :=
  cdiv (f.sigma * f.ovendryLoading) f.particleDensity

/-- Loop body of `calcMeanSurfaceAreaOneCategory` (Rothermel eqn 54):
accumulates the per-class area dict and the category total. -/
def calcAreasClasses : List (String × Fuel) → Dict ℚ × ℚ → Except String (Dict ℚ × ℚ)
  | [], acc => .ok acc
  | (cls, f) :: rest, acc => do
      let a ← calcMeanSurfaceAreaOneClass f
      calcAreasClasses rest (Dict.insert acc.1 cls a, acc.2 + a)

/-- `calcMeanSurfaceArea` (Rothermel eqn 55): rebuilds `classAreas`,
`categoryAreas` and `totalArea` from scratch over all categories. -/
def calcMSA : List (String × Dict Fuel) → Dict (Dict ℚ) × Dict ℚ × ℚ →
    Except String (Dict (Dict ℚ) × Dict ℚ × ℚ)
  | [], acc => .ok acc
  | (cat, classes) :: rest, acc => do
      let r ← calcAreasClasses classes ([], 0)
      calcMSA rest (Dict.insert acc.1 cat r.1, Dict.insert acc.2.1 cat r.2, acc.2.2 + r.2)

/-- Inner loop of `calcWeightingParameters` (Rothermel eqn 56): class
weight = class area / category area; `ZeroDivisionError` when the
category area is zero. -/
def calcClassWeights : List (String × ℚ) → ℚ → Dict ℚ → Except String (Dict ℚ)
  | [], _, acc => .ok acc
  | (cls, a) :: rest, catArea, acc => do
      let w ← cdiv a catArea
      calcClassWeights rest catArea (Dict.insert acc cls w)

/-- Outer loop of `calcWeightingParameters` (Rothermel eqns 56 and 57)
over the freshly computed `classAreas`: per category, first the
category weight (category area / total area), then the class weights. -/
def calcWeights (cata : Dict ℚ) (tot : ℚ) :
    List (String × Dict ℚ) → Dict ℚ × Dict (Dict ℚ) →
    Except String (Dict ℚ × Dict (Dict ℚ))
  | [], acc => .ok acc
  | (cat, classes) :: rest, acc => do
      let ca := (Dict.find? cata cat).getD 0
      let w ← cdiv ca tot
      let inner ← calcClassWeights classes ca []
      calcWeights cata tot rest (Dict.insert acc.1 cat w, Dict.insert acc.2 cat inner)

/-- `calcWeightingParameters` (`rothweights.py`): recompute all surface
areas, then the category and class weightings. -/
def RothermelFuelComplex.calcWeightingParameters (c : RothermelFuelComplex) :
    Except String RothermelFuelComplex := do
  let r ← calcMSA c.fuelParameters ([], [], 0)
  let w ← calcWeights r.2.1 r.2.2 r.1 ([], [])
  .ok { c with
    classAreas := r.1
    categoryAreas := r.2.1
    totalArea := r.2.2
    categoryWeighting := w.1
    classWeighting := w.2 }

/-- The particle mutation performed inside `aggregateIntoCategories`:
`curFuel.calcNetFuelLoading()` recomputes `netFuelLoading` from the
loading and total mineral content via the injected strategy. -/
def uNet (strat : FuelStrategy) (f : Fuel) : Fuel :=
  { f with netFuelLoading :=
      strat.calcNetFuelLoading f.ovendryLoading f.totMineralContent }

/-- The net effect of `aggregateIntoCategories` on the particle map:
every particle reached through the weighting dicts has its
`netFuelLoading` recomputed in place. -/
def netUpdAll (strat : FuelStrategy) (cw : Dict ℚ) (clw : Dict (Dict ℚ))
    (fp : Dict (Dict Fuel)) : Dict (Dict Fuel) :=
  Dict.applyAllU
    (fun cat inner =>
      Dict.applyAllU (fun _ => uNet strat)
        (Dict.keys ((Dict.find? clw cat).getD [])) inner)
    (Dict.keys cw) fp

/-- Per-category accumulation of `aggregateIntoCategories` (Rothermel
eqns 59, 61, 63, 66): class-weighted sums of net fuel loading (freshly
recomputed), heat content, effective mineral content and fuel
moisture.  A missing key would raise `KeyError` in Python; the sentinel
default is never reached when the weights were just computed. -/
def catAggSums (strat : FuelStrategy) (wgts : List (String × ℚ))
    (inner : Dict Fuel) : ℚ × ℚ × ℚ × ℚ :=
  wgts.foldl (fun s jv =>
    let f := (Dict.find? inner jv.1).getD defaultFuel
    (s.1 + jv.2 * strat.calcNetFuelLoading f.ovendryLoading f.totMineralContent,
     s.2.1 + jv.2 * f.heatContent,
     s.2.2.1 + jv.2 * f.effMineralContent,
     s.2.2.2 + jv.2 * f.fuelMoisture)) (0, 0, 0, 0)

/-- The four per-category aggregate dictionaries produced by
`aggregateIntoCategories`, keyed in `categoryWeighting` order. -/
def aggCats (strat : FuelStrategy) (cw : Dict ℚ) (clw : Dict (Dict ℚ))
    (fp : Dict (Dict Fuel)) : Dict ℚ × Dict ℚ × Dict ℚ × Dict ℚ :=
  cw.foldl (fun acc kv =>
    let s := catAggSums strat ((Dict.find? clw kv.1).getD [])
      ((Dict.find? fp kv.1).getD [])
    (Dict.insert acc.1 kv.1 s.1, Dict.insert acc.2.1 kv.1 s.2.1,
     Dict.insert acc.2.2.1 kv.1 s.2.2.1, Dict.insert acc.2.2.2 kv.1 s.2.2.2))
    ([], [], [], [])

/-- `aggregateIntoCategories` (`rothweights.py`): recompute every
reached particle net loading in place and store the four per-category
aggregate dictionaries. -/
def RothermelFuelComplex.aggregateIntoCategories (strat : FuelStrategy)
    (c : RothermelFuelComplex) : RothermelFuelComplex :=
  let r := aggCats strat c.categoryWeighting c.classWeighting c.fuelParameters
  { c with
    fuelParameters := netUpdAll strat c.categoryWeighting c.classWeighting c.fuelParameters
    netFuelLoading := r.1
    heatContent := r.2.1
    effMineralContent := r.2.2.1
    fuelMoisture := r.2.2.2 }

/-- Inner loop of `aggregateIntoComplex` (Rothermel eqns 72, 73, 74):
per-category σ sum, and the running packing-ratio and bulk-density
sums.  The division by the particle density is total here; Python
would raise on a zero density, a state no claim exercises. -/
def catSigmaPrBd (wgts : List (String × ℚ)) (inner : Dict Fuel)
    (pr0 bd0 : ℚ) : ℚ × ℚ × ℚ :=
  wgts.foldl (fun s jv =>
    let f := (Dict.find? inner jv.1).getD defaultFuel
    (s.1 + jv.2 * f.sigma,
     s.2.1 + jv.2 * f.ovendryLoading / f.particleDensity,
     s.2.2 + jv.2 * f.ovendryLoading)) (0, pr0, bd0)

/-- The three whole-complex sums of `aggregateIntoComplex`:
(σ, packing-ratio numerator, bulk-density numerator). -/
def aggComplexSums (cw : Dict ℚ) (clw : Dict (Dict ℚ))
    (fp : Dict (Dict Fuel)) : ℚ × ℚ × ℚ :=
  cw.foldl (fun acc kv =>
    let r := catSigmaPrBd ((Dict.find? clw kv.1).getD [])
      ((Dict.find? fp kv.1).getD []) acc.2.1 acc.2.2
    (acc.1 + kv.2 * r.1, r.2.1, r.2.2)) (0, 0, 0)

/-- `setSigma` as inherited and invoked on the whole complex at the end
of `aggregateIntoComplex`: same formulas and same `ValueError` guard as
`Fuel.setSigma`, writing the complex-level scalar fields. -/
def RothermelFuelComplex.setSigma (A : Prims → ℚ → ℚ) (p : Prims)
    (sigma : ℚ) (c : RothermelFuelComplex) : Except String RothermelFuelComplex :=
  if sigma ≤ 0 then .error "math domain error"
  else
    let sigma15 := p.rpow sigma 1.5
    .ok { c with
      sigma := sigma
      optimalPacking := 3.348 * p.rpow sigma (-0.8189)
      maxPotentialVelocity := sigma15 / (495 + 0.0594 * sigma15)
      exponentA := A p sigma
      heatingEfficiency := p.exp (-138 / sigma) }

/-- `aggregateIntoComplex` (`rothweights.py`): whole-complex σ, bulk
density and packing ratio (Rothermel eqns 72-74; the depth divisions
are total here, Python raising on a zero depth), then the σ-derived
geometry via `setSigma`. -/
def RothermelFuelComplex.aggregateIntoComplex (p : Prims)
    (A : Prims → ℚ → ℚ) (c : RothermelFuelComplex) :
    Except String RothermelFuelComplex :=
  let r := aggComplexSums c.categoryWeighting c.classWeighting c.fuelParameters
  RothermelFuelComplex.setSigma A p r.1
    { c with bulkDensity := r.2.2 / c.depth, packingRatio := r.2.1 / c.depth }

/-- `compute` (`rothweights.py`): weighting parameters, then the
per-category aggregation, then the whole-complex aggregation, in that
order.  `strat` is the particle-level strategy (class attribute of the
stored `Fuel` objects), `A` the complex-level exponent-A strategy. -/
def RothermelFuelComplex.compute (p : Prims) (strat : FuelStrategy)
    (A : Prims → ℚ → ℚ) (c : RothermelFuelComplex) :
    Except String RothermelFuelComplex := do
  let c1 ← RothermelFuelComplex.calcWeightingParameters c
  RothermelFuelComplex.aggregateIntoComplex p A
    (RothermelFuelComplex.aggregateIntoCategories strat c1)

/-- Numerator of Albini W-prime: `Σ dead loading · exp(−138/σ)`; the
σ division is total here (Python would raise at σ = 0, a state no
claim exercises). -/
def albiniDeadNum (p : Prims) (dead : Dict Fuel) : ℚ :=
  dead.foldl (fun s kv => s + kv.2.ovendryLoading * p.exp (-138 / kv.2.sigma)) 0

/-- Denominator of Albini W-prime: `Σ live loading · exp(−500/σ)`. -/
def albiniLiveDenom (p : Prims) (live : Dict Fuel) : ℚ :=
  live.foldl (fun s kv => s + kv.2.ovendryLoading * p.exp (-500 / kv.2.sigma)) 0

/-- Numerator of Albini M-prime: the dead weighted-moisture sum. -/
def albiniDeadMoistNum (p : Prims) (dead : Dict Fuel) : ℚ :=
  dead.foldl (fun s kv =>
    s + kv.2.ovendryLoading * p.exp (-138 / kv.2.sigma) * kv.2.fuelMoisture) 0

/-- `AlbiniFuelComplex.calcWPrime` (`albini.py`): dead weighted sum over
live weighted sum; `KeyError` when a category is missing from the
particle map, `ZeroDivisionError` when the live denominator is zero. -/
def AlbiniFuelComplex.calcWPrime (p : Prims) (c : RothermelFuelComplex) :
    Except String ℚ :=
  match Dict.find? c.fuelParameters DEAD with
  | none => .error "KeyError"
  | some dead =>
    match Dict.find? c.fuelParameters LIVE with
    | none => .error "KeyError"
    | some live => cdiv (albiniDeadNum p dead) (albiniLiveDenom p live)

/-- `AlbiniFuelComplex.calcMPrime` (`albini.py`): weighted dead fuel
moisture. -/
def AlbiniFuelComplex.calcMPrime (p : Prims) (c : RothermelFuelComplex) :
    Except String ℚ :=
  match Dict.find? c.fuelParameters DEAD with
  | none => .error "KeyError"
  | some dead => cdiv (albiniDeadMoistNum p dead) (albiniDeadNum p dead)

/-- `AlbiniFuelComplex.calcLivingExtMoisture` (`albini.py`).  The guard
`(not (LIVE in fp)) or (fp[LIVE][ONEHR].ovendryLoading == 0)`
short-circuits: with no live category the method silently returns; with
a live category but no `1 hr` class the loading read raises `KeyError`
before the guard can decide to skip.  Otherwise W-prime and M-prime are
computed and the live extinction moisture stored. -/
def AlbiniFuelComplex.calcLivingExtMoisture (p : Prims)
    (c : RothermelFuelComplex) : Except String RothermelFuelComplex :=
  match Dict.find? c.fuelParameters LIVE with
  | none => .ok c
  | some live =>
    match Dict.find? live ONEHR with
    | none => .error "KeyError"
    | some oneHr =>
      if oneHr.ovendryLoading = 0 then .ok c
      else do
        let w ← AlbiniFuelComplex.calcWPrime p c
        let m ← AlbiniFuelComplex.calcMPrime p c
        match Dict.find? c.extMoisture DEAD with
        | none => .error "KeyError"
        | some dext => do
          let q ← cdiv m dext
          .ok { c with
            wPrime := w
            mPrime := m
            extMoisture := Dict.insert c.extMoisture LIVE (2.9 * w * (1 - q) - 0.226) }

/-- Moisture damping polynomial (Rothermel eqn 29/64):
`1 − 2.59 r + 5.11 r² − 3.52 r³`, computed stepwise as in the source. -/
def moistureDampingPoly (r : ℚ) : ℚ :=
  1 - 2.59 * r + 5.11 * (r * r) - 3.52 * (r * r * r)

/-- `calcPropFluxRatio` (Rothermel eqn 42). -/
def calcPropFluxRatio (p : Prims) (sigma packingRatio : ℚ) : ℚ :=
  p.exp ((0.792 + 0.681 * p.sqrt sigma) * (packingRatio + 0.1)) /
    (192 + 0.259 * sigma)

/-- `calcPotReactionVelocity` (Rothermel eqn 38). -/
def calcPotReactionVelocity (p : Prims)
    (maxVel packingRatio optimalPacking exponentA : ℚ) : ℚ :=
  let ratio := packingRatio / optimalPacking
  maxVel * p.rpow ratio exponentA * p.exp (exponentA * (1 - ratio))

/-- `setWind` multiplier (Rothermel eqns 47-50). -/
def calcWindMultiplier (p : Prims)
    (sigma packingRatio optimalPacking midflameWind : ℚ) : ℚ :=
  let c := 7.47 * p.exp (-0.133 * p.rpow sigma 0.55)
  let b := 0.02526 * p.rpow sigma 0.54
  let e := 0.715 * p.exp (-0.000359 * sigma)
  c * p.rpow midflameWind b * p.rpow (packingRatio / optimalPacking) (-e)

/-- `setSlope` multiplier (Rothermel eqn 51). -/
def calcSlopeMultiplier (p : Prims) (packingRatio slope : ℚ) : ℚ :=
  5.275 * p.rpow packingRatio (-0.3) * (p.tan slope * p.tan slope)

/-- Basic `RothermelModel.calcMoistureDamping` (eqn 29); reading an
unset extinction moisture would raise in Python, modelled with a
sentinel never reached by the claims. -/
def RothermelModel.calcMoistureDamping (f : Fuel) : ℚ :=
  moistureDampingPoly (f.fuelMoisture / f.extMoisture.getD 0)

/-- Basic `RothermelModel.calcMineralDamping` (eqn 30). -/
def RothermelModel.calcMineralDamping (p : Prims) (f : Fuel) : ℚ :=
  p.rpow f.effMineralContent (-0.19) * 0.174

/-- Interim and final outputs written by a basic `RothermelModel`
evaluation. -/
structure BasicOut where
  propFluxRatio : ℚ
  dampMineral : ℚ
  dampMoisture : ℚ
  potReactionVelocity : ℚ
  reactionIntensity : ℚ
  noWindRos : ℚ
  ros : ℚ
deriving DecidableEq

/-- Interim and final outputs of a weighted (categorical) model
evaluation; the damping coefficients are per-category maps. -/
structure WeightedOut where
  propFluxRatio : ℚ
  dampMineral : Dict ℚ
  dampMoisture : Dict ℚ
  potReactionVelocity : ℚ
  reactionIntensity : ℚ
  noWindRos : ℚ
  ros : ℚ
deriving DecidableEq

/-- `RothermelModel.evaluate` (`model.py`): net-fuel-loading refresh,
flux ratio, both dampings, potential reaction velocity, reaction
intensity (eqn 27), no-wind rate of spread (eqn 43) and final rate of
spread (eqn 52).  The wind and slope multipliers are the stored state
set by `setWind`/`setSlope` (zero at construction). -/
def RothermelModel.evaluate (p : Prims) (strat : FuelStrategy) (f : Fuel)
    (windMultiplier slopeMultiplier : ℚ) : BasicOut :=
  let f := uNet strat f
  let flux := calcPropFluxRatio p f.sigma f.packingRatio
  let dmin := RothermelModel.calcMineralDamping p f
  let dm := RothermelModel.calcMoistureDamping f
  let pv := calcPotReactionVelocity p f.maxPotentialVelocity f.packingRatio
    f.optimalPacking f.exponentA
  let ri := f.netFuelLoading * f.heatContent * pv * dmin * dm
  let nw := ri * flux / (f.bulkDensity * f.heatingEfficiency * f.heatOfIgnition)
  ⟨flux, dmin, dm, pv, ri, nw, nw * (1 + windMultiplier + slopeMultiplier)⟩

/-- `WeightedRothermelModel.calcMineralDamping` (eqn 62): the scalar
formula applied per category. -/
def WeightedRothermelModel.calcMineralDamping (p : Prims)
    (c : RothermelFuelComplex) : Dict ℚ :=
  c.effMineralContent.map (fun kv => (kv.1, p.rpow kv.2 (-0.19) * 0.174))

/-- `WeightedRothermelModel.calcMoistureDamping` (eqn 64): per-category
moisture/extinction ratio fed to the damping polynomial; a missing
extinction entry would raise `KeyError` in Python, modelled with a
sentinel never reached by the claims. -/
def WeightedRothermelModel.calcMoistureDamping (c : RothermelFuelComplex) :
    Dict ℚ :=
  c.fuelMoisture.map (fun kv =>
    (kv.1, moistureDampingPoly (kv.2 / (Dict.find? c.extMoisture kv.1).getD 0)))

/-- `WeightedRothermelModel.calcReactionIntensity` (Rothermel eqn 58):
loop over the moisture-damping categories accumulating
`categoryWeight · netFuelLoading · heatContent · dampMoisture ·
dampMineral`, finally multiplied by the potential reaction velocity. -/
def WeightedRothermelModel.calcReactionIntensity (c : RothermelFuelComplex)
    (dampMoisture dampMineral : Dict ℚ) (potVel : ℚ) : ℚ :=
  (dampMoisture.foldl (fun s kv =>
    s + (Dict.find? c.categoryWeighting kv.1).getD 0 *
        (Dict.find? c.netFuelLoading kv.1).getD 0 *
        (Dict.find? c.heatContent kv.1).getD 0 *
        kv.2 * (Dict.find? dampMineral kv.1).getD 0) 0) * potVel

/-- `WeightedAlbiniModel.calcReactionIntensity` (Albini appendix III):
identical accumulation without the category-weight factor. -/
def WeightedAlbiniModel.calcReactionIntensity (c : RothermelFuelComplex)
    (dampMoisture dampMineral : Dict ℚ) (potVel : ℚ) : ℚ :=
  (dampMoisture.foldl (fun s kv =>
    s + (Dict.find? c.netFuelLoading kv.1).getD 0 *
        (Dict.find? c.heatContent kv.1).getD 0 *
        kv.2 * (Dict.find? dampMineral kv.1).getD 0) 0) * potVel

/-- Heat-sink double sum of `WeightedRothermelModel.calcNoWindRos`
(eqn 75): `Σ_category categoryWeight · Σ_class classWeight ·
heatOfIgnition · heatingEfficiency`.  Note the source never multiplies
by the bulk density its docstring lists as required. -/
def WeightedRothermelModel.calcSinks (c : RothermelFuelComplex) : ℚ :=
  c.fuelParameters.foldl (fun s kv =>
    s + (Dict.find? c.categoryWeighting kv.1).getD 0 *
        (kv.2.foldl (fun t jv =>
          t + (Dict.find? ((Dict.find? c.classWeighting kv.1).getD []) jv.1).getD 0 *
              jv.2.heatOfIgnition * jv.2.heatingEfficiency) 0)) 0

/-- `WeightedRothermelModel` evaluation pipeline, in the inherited
`evaluate` order; the complex `calcNetFuelLoading` is overridden to a
no-op.  The no-wind rate of spread is `flux · reactionIntensity /
sinks`, with no bulk-density factor (see `calcSinks`). -/
def WeightedRothermelModel.evaluate (p : Prims) (c : RothermelFuelComplex)
    (windMultiplier slopeMultiplier : ℚ) : WeightedOut :=
  let flux := calcPropFluxRatio p c.sigma c.packingRatio
  let dmin := WeightedRothermelModel.calcMineralDamping p c
  let dm := WeightedRothermelModel.calcMoistureDamping c
  let pv := calcPotReactionVelocity p c.maxPotentialVelocity c.packingRatio
    c.optimalPacking c.exponentA
  let ri := WeightedRothermelModel.calcReactionIntensity c dm dmin pv
  let nw := flux * ri / WeightedRothermelModel.calcSinks c
  ⟨flux, dmin, dm, pv, ri, nw, nw * (1 + windMultiplier + slopeMultiplier)⟩

/-- Modelled from the spec: the memoized output state the façade
inherits from the absent `common.fbp.FireBehaviorPrediction` base
class.  Per the spec the model is a two-phase state machine
(UNEVALUATED → EVALUATED) whose two outputs (rate of spread, heat per
area) start unset and are memoized once both are stored. -/
structure FireBehaviorPrediction where
  rateOfSpread : Option ℚ := none
  heatPerArea : Option ℚ := none
deriving DecidableEq

/-- Modelled from the spec: the freshly constructed façade state, both
memoized outputs unset. -/
def FireBehaviorPrediction.fresh : FireBehaviorPrediction := {}

/-- `RothermelFBP.evaluate` (`fbp.py`): recompute only when BOTH
memoized outputs are unset, storing the fire-model results.  The
underlying fire-model computation is abstracted as the pair
`(ros, ri)` it would produce for the configured scenario. -/
def RothermelFBP.evaluate (ros ri : ℚ) (s : FireBehaviorPrediction) :
    FireBehaviorPrediction :=
  if s.rateOfSpread = none ∧ s.heatPerArea = none then
    { s with heatPerArea := some ri, rateOfSpread := some ros }
  else s

/-- `RothermelFBP.getRateOfSpread` (`fbp.py`): return the cached value
when present; otherwise evaluate, clamp a negative stored rate of
spread to zero, and return it.  (A state with only `heatPerArea` set is
unreachable through the façade; there Python would raise comparing
`None`, modelled by the sentinel branch.) -/
def RothermelFBP.getRateOfSpread (ros ri : ℚ) (s : FireBehaviorPrediction) :
    ℚ × FireBehaviorPrediction :=
  match s.rateOfSpread with
  | some v => (v, s)
  | none =>
    let s1 := RothermelFBP.evaluate ros ri s
    match s1.rateOfSpread with
    | some v => if v < 0 then (0, { s1 with rateOfSpread := some 0 }) else (v, s1)
    | none => (0, s1)

/-- `RothermelFBP.getHeatPerArea` (`fbp.py`): the cache check tests
`rateOfSpread`, not `heatPerArea`; when it hits, the stored heat per
area is returned with no clamping.  Only the evaluating path clamps a
negative heat per area to zero. -/
def RothermelFBP.getHeatPerArea (ros ri : ℚ) (s : FireBehaviorPrediction) :
    ℚ × FireBehaviorPrediction :=
  match s.rateOfSpread with
  | some _ => (s.heatPerArea.getD 0, s)
  | none =>
    let s1 := RothermelFBP.evaluate ros ri s
    match s1.heatPerArea with
    | some v => if v < 0 then (0, { s1 with heatPerArea := some 0 }) else (v, s1)
    | none => (0, s1)

/-- Concrete all-one interpretation of the transcendental primitives,
used to evaluate witnesses. -/
def onePrims : Prims := ⟨fun _ => 1, fun _ _ => 1, fun _ => 1, fun _ => 1⟩

/-- Concrete interpretation with a zero exponential, used to exhibit a
zero Albini live denominator. -/
def zeroExpPrims : Prims := ⟨fun _ => 0, fun _ _ => 1, fun _ => 1, fun _ => 1⟩

/-- NFFL-1 dead 1-hr particle (σ = 3500, loading = 0.034) with fuel
moisture 0.06 applied, built through the source constructors under
`onePrims`. -/
def demoParticle : Fuel :=
  Fuel.setFuelMoisture (3/50) none
    ((Fuel.init RothermelExponentA onePrims 3500 (17/500)).toOption.getD defaultFuel)

/-- NFFL-1-shaped fuel complex (dead 1-hr only, extinction moisture
0.12, depth 1 ft) with particle moisture 0.06. -/
def demoComplex : RothermelFuelComplex :=
  ((({} : RothermelFuelComplex).setFuelParams DEAD ONEHR demoParticle).setExtMoisture
    DEAD (3/25)).setDepth 1

/-- The demo particle written out field by field (all `onePrims`
transcendental calls return 1). -/
def demoParticleRec : Fuel :=
  { ovendryLoading := 17/500
    sigma := 3500
    particleDensity := 32
    totMineralContent := 111/2000
    effMineralContent := 1/100
    heatContent := 8000
    fuelMoisture := 3/50
    extMoisture := none
    optimalPacking := 837/250
    maxPotentialVelocity := 5000/2475297
    exponentA := -(2/5)
    heatingEfficiency := 1
    heatOfIgnition := 7924/25
    netFuelLoading := 0
    bulkDensity := 0
    packingRatio := 0 }

/-- The demo complex written out field by field. -/
def demoComplexRec : RothermelFuelComplex :=
  { fuelParameters := [(DEAD, [(ONEHR, demoParticleRec)])]
    extMoisture := [(DEAD, 3/25)]
    depth := 1 }

/-- The demo complex after `calcWeightingParameters`: surface area
`σ·w0/ρ = 119/32`, all weights 1. -/
def demoWeighted : RothermelFuelComplex :=
  { demoComplexRec with
    classAreas := [(DEAD, [(ONEHR, 119/32)])]
    categoryAreas := [(DEAD, 119/32)]
    totalArea := 119/32
    classWeighting := [(DEAD, [(ONEHR, 1)])]
    categoryWeighting := [(DEAD, 1)] }

/-- The demo complex after a full `compute` under `onePrims`: net
loading `0.034/1.0555 = 68/2111`, bulk density `0.034`, packing ratio
`17/16000`, aggregated σ back to 3500. -/
def demoComputed : RothermelFuelComplex :=
  { demoWeighted with
    fuelParameters :=
      [(DEAD, [(ONEHR, { demoParticleRec with netFuelLoading := 68/2111 })])]
    netFuelLoading := [(DEAD, 68/2111)]
    heatContent := [(DEAD, 8000)]
    effMineralContent := [(DEAD, 1/100)]
    fuelMoisture := [(DEAD, 3/50)]
    sigma := 3500
    packingRatio := 17/16000
    bulkDensity := 17/500
    optimalPacking := 837/250
    maxPotentialVelocity := 5000/2475297
    exponentA := -(2/5)
    heatingEfficiency := 1 }

/-- The computed demo complex after updating the dead 1-hr fuel
moisture to 0.1 (heat of ignition `250 + 111.6 = 1808/5`). -/
def demoMoistened : RothermelFuelComplex :=
  { demoComputed with
    fuelParameters :=
      [(DEAD, [(ONEHR, { demoParticleRec with
        netFuelLoading := 68/2111
        fuelMoisture := 1/10
        heatOfIgnition := 1808/5 })])] }

/-- Matching basic fuel for the demo scenario: same σ, loading,
moistures and defaults, with the bulk density loading/depth the complex
aggregation produces. -/
def demoBasicFuel : Fuel :=
  Fuel.setDensity ((17/500) / 1) 32
    (Fuel.setFuelMoisture (3/50) (some (3/25))
      ((Fuel.init RothermelExponentA onePrims 3500 (17/500)).toOption.getD defaultFuel))

/-- Weighted-model evaluation of the computed demo complex (zero wind
and slope multipliers). -/
def demoWeightedOut : WeightedOut :=
  WeightedRothermelModel.evaluate onePrims demoComputed 0 0

/-- Basic-model evaluation of the matching basic fuel (zero wind and
slope multipliers). -/
def demoBasicOut : BasicOut :=
  RothermelModel.evaluate onePrims rothermelStrategy demoBasicFuel 0 0

/-- Complex whose only category holds one particle with zero loading. -/
def zeroLoadComplex : RothermelFuelComplex :=
  ({} : RothermelFuelComplex).setFuelParams DEAD ONEHR { defaultFuel with sigma := 3500 }

/-- Complex with dead and live 1-hr particles of non-zero loading. -/
def liveDeadComplex : RothermelFuelComplex :=
  (((({} : RothermelFuelComplex).setFuelParams DEAD ONEHR demoParticle).setFuelParams
    LIVE ONEHR { defaultFuel with sigma := 1500, ovendryLoading := 23/1000 }).setExtMoisture
    DEAD (3/25)).setDepth 1

/-- Complex whose live category has only a 10-hr class. -/
def liveNoOneHrComplex : RothermelFuelComplex :=
  ({} : RothermelFuelComplex).setFuelParams LIVE TENHR demoParticle

/-- True exactly when an `Except` computation raised. -/
def isFailure {α : Type} : Except String α → Bool
  | .error _ => true
  | .ok _ => false

/-- Map over the values of a dict, keeping the keys. -/
def Dict.projD {α β : Type} (g : α → β) (d : Dict α) : Dict β :=
  d.map (fun kv => (kv.1, g kv.2))

/-- Surface area of one size class, `σ w0 / ρp` (the value
`calcMeanSurfaceAreaOneClass` produces when it does not raise). -/
def areaVal (f : Fuel) : ℚ := f.sigma * f.ovendryLoading / f.particleDensity

/-- Per-class surface-area dict of a category. -/
def classAreasVal (classes : Dict Fuel) : Dict ℚ := Dict.projD areaVal classes

/-- Total surface area of a category. -/
def catAreaVal (classes : Dict Fuel) : ℚ :=
  (classes.map (fun kv => areaVal kv.2)).sum

/-- The particle fields the surface-area computation reads. -/
def geoProj (f : Fuel) : ℚ × ℚ × ℚ :=
  (f.sigma, f.ovendryLoading, f.particleDensity)

/-- The particle fields the per-category aggregation reads. -/
def aggProj (f : Fuel) : ℚ × ℚ × ℚ × ℚ × ℚ :=
  (f.ovendryLoading, f.totMineralContent, f.heatContent,
   f.effMineralContent, f.fuelMoisture)

/-- Fuel moisture stored at a class key (sentinel for a missing key,
matching `catAggSums`). -/
def readMoist (inner : Dict Fuel) (j : String) : ℚ :=
  ((Dict.find? inner j).getD defaultFuel).fuelMoisture

/-- Class-weighted fuel-moisture sum of one category (the value the
aggregation stores in `fuelMoisture[cat]`). -/
def catMoistVal (wgts : Dict ℚ) (inner : Dict Fuel) : ℚ :=
  (wgts.map (fun jv => jv.2 * readMoist inner jv.1)).sum

/-- A list-fold of repeated addition is the initial value plus the sum
of the mapped elements. -/
theorem foldl_add_eq_sum {α : Type} (g : α → ℚ) (l : List α) (a : ℚ) :
    l.foldl (fun s x => s + g x) a = a + (l.map g).sum := by
  induction l generalizing a with
  | nil => simp
  | cons x xs ih => simp [ih, add_assoc]

/-- C1 counterexample.  When the computed heat per area is negative
(here −1) and `getRateOfSpread` is called first, the subsequent
`getHeatPerArea` call hits the `rateOfSpread` cache check and returns
the stored −1 unclamped, so the claimed order-independent 0.0 fails. -/
theorem c1_counterexample :
    (-1 : ℚ) < 0 ∧
    (RothermelFBP.getHeatPerArea 1 (-1)
      (RothermelFBP.getRateOfSpread 1 (-1) FireBehaviorPrediction.fresh).2).1 ≠ 0 := by
  decide

/-- C1 (amended): the façade clamp applies on the evaluating call: from
the unevaluated state, reading a negative computed rate of spread
through `getRateOfSpread` returns exactly 0, and reading a negative
computed heat per area through `getHeatPerArea` returns exactly 0. -/
theorem c1_facade_clamp (ros ri : ℚ) :
    (ros < 0 → (RothermelFBP.getRateOfSpread ros ri FireBehaviorPrediction.fresh).1 = 0) ∧
    (ri < 0 → (RothermelFBP.getHeatPerArea ros ri FireBehaviorPrediction.fresh).1 = 0) := by
  constructor
  · intro h
    simp [RothermelFBP.getRateOfSpread, RothermelFBP.evaluate,
      FireBehaviorPrediction.fresh, h]
  · intro h
    simp [RothermelFBP.getHeatPerArea, RothermelFBP.evaluate,
      FireBehaviorPrediction.fresh, h]

/-- C1 witness: both clamps at the concrete negative outputs −1, −2. -/
theorem c1_witness :
    (RothermelFBP.getRateOfSpread (-1) (-2) FireBehaviorPrediction.fresh).1 = 0 ∧
    (RothermelFBP.getHeatPerArea (-1) (-2) FireBehaviorPrediction.fresh).1 = 0 :=
  ⟨(c1_facade_clamp (-1) (-2)).1 (by norm_num),
   (c1_facade_clamp (-1) (-2)).2 (by norm_num)⟩

/-- C3: the Albini categorical reaction intensity is the potential
reaction velocity times the category sum of net fuel loading × heat
content × moisture damping × mineral damping, with no category-weight
factor; the Rothermel categorical form is the same sum with each term
additionally multiplied by its category weight. -/
theorem c3_reaction_intensity_forms (c : RothermelFuelComplex)
    (dampMoisture dampMineral : Dict ℚ) (potVel : ℚ) :
    WeightedAlbiniModel.calcReactionIntensity c dampMoisture dampMineral potVel =
      potVel * (dampMoisture.map (fun kv =>
        (Dict.find? c.netFuelLoading kv.1).getD 0 *
        (Dict.find? c.heatContent kv.1).getD 0 *
        kv.2 * (Dict.find? dampMineral kv.1).getD 0)).sum ∧
    WeightedRothermelModel.calcReactionIntensity c dampMoisture dampMineral potVel =
      potVel * (dampMoisture.map (fun kv =>
        (Dict.find? c.categoryWeighting kv.1).getD 0 *
        (Dict.find? c.netFuelLoading kv.1).getD 0 *
        (Dict.find? c.heatContent kv.1).getD 0 *
        kv.2 * (Dict.find? dampMineral kv.1).getD 0)).sum := by
  constructor
  · unfold WeightedAlbiniModel.calcReactionIntensity
    rw [foldl_add_eq_sum (fun (kv : String × ℚ) =>
      (Dict.find? c.netFuelLoading kv.1).getD 0 *
      (Dict.find? c.heatContent kv.1).getD 0 *
      kv.2 * (Dict.find? dampMineral kv.1).getD 0)]
    ring
  · unfold WeightedRothermelModel.calcReactionIntensity
    rw [foldl_add_eq_sum (fun (kv : String × ℚ) =>
      (Dict.find? c.categoryWeighting kv.1).getD 0 *
      (Dict.find? c.netFuelLoading kv.1).getD 0 *
      (Dict.find? c.heatContent kv.1).getD 0 *
      kv.2 * (Dict.find? dampMineral kv.1).getD 0)]
    ring

/-- C5: with no live category in the particle map, the Albini
live-extinction-moisture computation returns the complex unchanged (in
particular the extinction-moisture map, and its absent live entry, are
untouched) and does not raise. -/
theorem c5_live_ext_noop (p : Prims) (c : RothermelFuelComplex)
    (h : Dict.find? c.fuelParameters LIVE = none) :
    AlbiniFuelComplex.calcLivingExtMoisture p c = .ok c := by
  unfold AlbiniFuelComplex.calcLivingExtMoisture
  rw [h]

/-- C5 witness: the dead-only demo complex is returned unchanged. -/
theorem c5_witness :
    Dict.find? demoComplex.fuelParameters LIVE = none ∧
    AlbiniFuelComplex.calcLivingExtMoisture onePrims demoComplex = .ok demoComplex :=
  ⟨by decide, c5_live_ext_noop onePrims demoComplex (by decide)⟩

/-- C10: with a live category present but no 1-hr class inside it, the
guard of the Albini live-extinction computation reads the live 1-hr
loading before it can decide to skip, so the call fails with a
key-lookup error (neither a silent skip nor a successful
computation). -/
theorem c10_live_missing_onehr (p : Prims) (c : RothermelFuelComplex)
    (live : Dict Fuel)
    (h1 : Dict.find? c.fuelParameters LIVE = some live)
    (h2 : Dict.find? live ONEHR = none) :
    AlbiniFuelComplex.calcLivingExtMoisture p c = .error "KeyError" := by
  unfold AlbiniFuelComplex.calcLivingExtMoisture
  simp only [h1, h2]

/-- C10 witness: a complex whose live category holds only a 10-hr
class fails with the key-lookup error. -/
theorem c10_witness :
    AlbiniFuelComplex.calcLivingExtMoisture onePrims liveNoOneHrComplex =
      .error "KeyError" :=
  c10_live_missing_onehr onePrims liveNoOneHrComplex [(TENHR, demoParticle)]
    rfl rfl


/-- The constructed demo particle evaluates to its explicit record. -/
theorem demoParticle_eq : demoParticle = demoParticleRec := by
  norm_num [demoParticle, demoParticleRec, Fuel.init, Fuel.setSigma,
    Fuel.setFuelMoisture, defaultFuel, onePrims, RothermelExponentA,
    Except.toOption, Bind.bind, Except.instMonad, Except.bind, Fuel.mk.injEq]

/-- The constructed demo complex evaluates to its explicit record. -/
theorem demoComplex_eq : demoComplex = demoComplexRec := by
  norm_num [demoComplex, demoComplexRec, RothermelFuelComplex.setFuelParams,
    RothermelFuelComplex.setExtMoisture, RothermelFuelComplex.setDepth,
    Dict.insert, Dict.find?, demoParticle_eq, RothermelFuelComplex.mk.injEq]

/-- Weighting the demo complex succeeds with all weights 1. -/
theorem demo_weights :
    RothermelFuelComplex.calcWeightingParameters demoComplex = .ok demoWeighted := by
  rw [demoComplex_eq]
  norm_num [RothermelFuelComplex.calcWeightingParameters, calcMSA,
    calcAreasClasses, calcMeanSurfaceAreaOneClass, cdiv, calcWeights,
    calcClassWeights, Dict.find?, Dict.insert, Bind.bind, Except.instMonad,
    Except.bind, demoComplexRec, demoParticleRec, demoWeighted,
    RothermelFuelComplex.mk.injEq]

/-- Computing the demo complex succeeds with the explicit aggregate
record. -/
theorem demo_compute :
    RothermelFuelComplex.compute onePrims rothermelStrategy RothermelExponentA
      demoComplex = .ok demoComputed := by
  rw [RothermelFuelComplex.compute, demo_weights]
  norm_num [RothermelFuelComplex.aggregateIntoCategories, aggCats, catAggSums,
    netUpdAll, Dict.applyAllU, Dict.modify1, Dict.keys, uNet, rothermelStrategy,
    RothermelNetFuelLoading, RothermelFuelComplex.aggregateIntoComplex,
    aggComplexSums, catSigmaPrBd, RothermelFuelComplex.setSigma,
    RothermelExponentA, onePrims, Dict.find?, Dict.insert, Bind.bind,
    Except.instMonad, Except.bind, demoWeighted, demoComplexRec,
    demoParticleRec, demoComputed, RothermelFuelComplex.mk.injEq,
    Fuel.mk.injEq]

/-- C6: for σ ≤ 0, `setSigma` (and hence the `Fuel` constructor given a
σ argument) fails with an error before any derived geometry is stored;
for σ > 0 it succeeds and stores exactly
`optimalPacking = 3.348 σ^(−0.8189)`,
`maxPotentialVelocity = σ^1.5/(495 + 0.0594 σ^1.5)` and
`heatingEfficiency = exp(−138/σ)`, alongside the strategy exponent. -/
theorem c6_setSigma (A : Prims → ℚ → ℚ) (p : Prims) (sigma loading : ℚ)
    (f : Fuel) :
    (sigma ≤ 0 →
      isFailure (Fuel.setSigma A p sigma f) = true ∧
      isFailure (Fuel.init A p sigma loading) = true) ∧
    (0 < sigma →
      Fuel.setSigma A p sigma f = .ok { f with
        sigma := sigma
        optimalPacking := 3.348 * p.rpow sigma (-0.8189)
        maxPotentialVelocity :=
          p.rpow sigma 1.5 / (495 + 0.0594 * p.rpow sigma 1.5)
        exponentA := A p sigma
        heatingEfficiency := p.exp (-138 / sigma) }) := by
  constructor
  · intro h
    constructor
    · simp [Fuel.setSigma, h, isFailure]
    · simp [Fuel.init, Fuel.setSigma, h, isFailure, Bind.bind,
        Except.instMonad, Except.bind]
  · intro h
    simp [Fuel.setSigma, not_le.mpr h]

/-- C6 witness: failure at σ = −5 (`setSigma`) and σ = 0
(constructor), success with the three formulas at σ = 3500 under
`onePrims`. -/
theorem c6_witness :
    isFailure (Fuel.setSigma RothermelExponentA onePrims (-5) defaultFuel) = true ∧
    isFailure (Fuel.init RothermelExponentA onePrims 0 (17/500)) = true ∧
    Fuel.setSigma RothermelExponentA onePrims 3500 defaultFuel =
      .ok { defaultFuel with
        sigma := 3500
        optimalPacking := 3.348 * Prims.rpow onePrims 3500 (-0.8189)
        maxPotentialVelocity := Prims.rpow onePrims 3500 1.5 /
          (495 + 0.0594 * Prims.rpow onePrims 3500 1.5)
        exponentA := RothermelExponentA onePrims 3500
        heatingEfficiency := Prims.exp onePrims (-138 / 3500) } :=
  ⟨((c6_setSigma RothermelExponentA onePrims (-5) (17/500) defaultFuel).1
      (by norm_num)).1,
   ((c6_setSigma RothermelExponentA onePrims 0 (17/500) defaultFuel).1
      (by norm_num)).2,
   (c6_setSigma RothermelExponentA onePrims 3500 (17/500) defaultFuel).2
      (by norm_num)⟩

/-- Updating the dead 1-hr moisture of the computed demo complex to 0.1
succeeds with the explicit record. -/
theorem demo_setMoisture :
    RothermelFuelComplex.setFuelMoisture demoComputed DEAD ONEHR (1/10) =
      .ok demoMoistened := by
  norm_num [RothermelFuelComplex.setFuelMoisture, Dict.find?, Dict.modify1,
    Fuel.setFuelMoisture, demoComputed, demoWeighted, demoComplexRec,
    demoParticleRec, demoMoistened, RothermelFuelComplex.mk.injEq,
    Fuel.mk.injEq]

/-- C2 (code bug).  On the single-particle scenario (dead 1-hr,
σ = 3500, loading = 0.034, depth 1, moisture 0.06, extinction 0.12,
zero wind and slope, `onePrims` transcendentals) the basic and the
categorical Rothermel models agree on the reaction intensity, but the
categorical `calcNoWindRos` divides by the heat-sink sum only, omitting
the bulk-density factor its own docstring lists as required, so the
categorical rate of spread equals the basic one multiplied by the bulk
density 0.034 and the two rates differ. -/
theorem c2_single_particle_divergence :
    RothermelFuelComplex.compute onePrims rothermelStrategy RothermelExponentA
      demoComplex = .ok demoComputed ∧
    demoWeightedOut.reactionIntensity = demoBasicOut.reactionIntensity ∧
    demoWeightedOut.ros = (17/500) * demoBasicOut.ros ∧
    demoWeightedOut.ros ≠ demoBasicOut.ros := by
  refine ⟨demo_compute, ?_, ?_, ?_⟩ <;>
  · norm_num [demoWeightedOut, demoBasicOut, WeightedRothermelModel.evaluate,
      RothermelModel.evaluate, WeightedRothermelModel.calcMineralDamping,
      WeightedRothermelModel.calcMoistureDamping,
      WeightedRothermelModel.calcReactionIntensity,
      WeightedRothermelModel.calcSinks, RothermelModel.calcMineralDamping,
      RothermelModel.calcMoistureDamping, moistureDampingPoly,
      calcPropFluxRatio, calcPotReactionVelocity, uNet, rothermelStrategy,
      RothermelNetFuelLoading, RothermelExponentA, onePrims, Dict.find?,
      demoComputed, demoWeighted, demoComplexRec, demoParticleRec,
      demoBasicFuel, demoParticle, Fuel.init, Fuel.setSigma,
      Fuel.setFuelMoisture, Fuel.setDensity, defaultFuel, Except.toOption,
      Bind.bind, Except.instMonad, Except.bind]

/-- Lookup commutes with value-mapping. -/
theorem Dict.find?_projD {α β : Type} (g : α → β) (d : Dict α) (k : String) :
    Dict.find? (Dict.projD g d) k = (Dict.find? d k).map g := by
  induction d with
  | nil => rfl
  | cons kv rest ih =>
    by_cases h : kv.1 = k <;> simp [Dict.projD, Dict.find?, h] <;>
      simpa [Dict.projD] using ih

/-- Assignment at a fresh key appends the binding. -/
theorem Dict.insert_of_find?_none {α : Type} (d : Dict α) (k : String) (v : α)
    (h : Dict.find? d k = none) : Dict.insert d k v = d ++ [(k, v)] := by
  induction d with
  | nil => rfl
  | cons kv rest ih =>
    rw [Dict.find?] at h
    by_cases hk : kv.1 = k
    · simp [hk] at h
    · simp only [hk, if_false] at h
      simp [Dict.insert, hk, ih h]

/-- With distinct keys, membership determines the lookup. -/
theorem Dict.find?_eq_of_mem_nodup {α : Type} (d : Dict α) (k : String) (v : α)
    (hnd : (Dict.keys d).Nodup) (hm : (k, v) ∈ d) : Dict.find? d k = some v := by
  induction d with
  | nil => simp at hm
  | cons kv rest ih =>
    simp only [Dict.keys, List.map_cons, List.nodup_cons] at hnd
    rcases List.mem_cons.mp hm with he | hr
    · rw [← he]
      simp [Dict.find?]
    · have hk : kv.1 ≠ k := by
        intro hcontra
        exact hnd.1 (hcontra ▸ List.mem_map_of_mem Prod.fst hr)
      simp [Dict.find?, hk]
      exact ih hnd.2 hr

/-- A successful lookup is a membership. -/
theorem Dict.find?_some_mem {α : Type} {d : Dict α} {k : String} {v : α}
    (h : Dict.find? d k = some v) : (k, v) ∈ d := by
  induction d with
  | nil => simp [Dict.find?] at h
  | cons kv rest ih =>
    rw [Dict.find?] at h
    by_cases hk : kv.1 = k
    · simp only [hk, if_true, Option.some.injEq] at h
      obtain ⟨k1, v1⟩ := kv
      simp only at hk h
      exact List.mem_cons.mpr (Or.inl (by rw [← hk, ← h]))
    · simp only [hk, if_false] at h
      exact List.mem_cons_of_mem kv (ih h)

/-- Mutating a key leaves the lookup elsewhere unchanged. -/
theorem Dict.find?_modify1_ne {α : Type} (d : Dict α) (k j : String) (u : α → α)
    (h : j ≠ k) : Dict.find? (Dict.modify1 d k u) j = Dict.find? d j := by
  induction d with
  | nil => rfl
  | cons kv rest ih =>
    rw [Dict.modify1]
    by_cases hk : kv.1 = k
    · have hj : kv.1 ≠ j := fun hc => h (hc ▸ hk)
      rw [if_pos hk, Dict.find?, Dict.find?, if_neg hj, if_neg hj]
    · rw [if_neg hk, Dict.find?, Dict.find?]
      by_cases hj : kv.1 = j
      · rw [if_pos hj, if_pos hj]
      · rw [if_neg hj, if_neg hj, ih]

/-- Mutating a key maps its looked-up value. -/
theorem Dict.find?_modify1_self {α : Type} (d : Dict α) (k : String) (u : α → α) :
    Dict.find? (Dict.modify1 d k u) k = (Dict.find? d k).map u := by
  induction d with
  | nil => rfl
  | cons kv rest ih =>
    by_cases hk : kv.1 = k <;> simp [Dict.modify1, Dict.find?, hk, ih]

/-- Mutating an absent key is a no-op. -/
theorem Dict.modify1_of_find?_none {α : Type} (d : Dict α) (k : String)
    (u : α → α) (h : Dict.find? d k = none) : Dict.modify1 d k u = d := by
  induction d with
  | nil => rfl
  | cons kv rest ih =>
    rw [Dict.find?] at h
    by_cases hk : kv.1 = k
    · simp [hk] at h
    · simp only [hk, if_false] at h
      simp [Dict.modify1, hk, ih h]

/-- Mutating with a function that fixes the stored value is a no-op. -/
theorem Dict.modify1_of_fix {α : Type} (d : Dict α) (k : String) (u : α → α)
    (v : α) (h : Dict.find? d k = some v) (hv : u v = v) :
    Dict.modify1 d k u = d := by
  induction d with
  | nil => rfl
  | cons kv rest ih =>
    rw [Dict.find?] at h
    by_cases hk : kv.1 = k
    · simp only [hk, if_true, Option.some.injEq] at h
      obtain ⟨k1, v1⟩ := kv
      simp only at hk h
      simp [Dict.modify1, hk, h, hv]
    · simp only [hk, if_false] at h
      simp [Dict.modify1, hk, ih h]

/-- A mutation fold does not touch keys outside its list. -/
theorem Dict.find?_applyAllU_not_mem {α : Type} (U : String → α → α)
    (ks : List String) (d : Dict α) (k : String) (h : k ∉ ks) :
    Dict.find? (Dict.applyAllU U ks d) k = Dict.find? d k := by
  induction ks generalizing d with
  | nil => rfl
  | cons k0 rest ih =>
    rw [Dict.applyAllU, ih _ (fun hr => h (List.mem_cons_of_mem k0 hr))]
    exact Dict.find?_modify1_ne d k0 k (U k0) (fun he => h (he ▸ List.mem_cons_self k0 rest))

/-- Over distinct keys, a mutation fold maps each listed key once. -/
theorem Dict.find?_applyAllU_nodup_mem {α : Type} (U : String → α → α)
    (ks : List String) (d : Dict α) (k : String) (hnd : ks.Nodup) (h : k ∈ ks) :
    Dict.find? (Dict.applyAllU U ks d) k = (Dict.find? d k).map (U k) := by
  induction ks generalizing d with
  | nil => simp at h
  | cons k0 rest ih =>
    rw [Dict.applyAllU]
    rcases List.mem_cons.mp h with he | hr
    · have hnr : k ∉ rest := he ▸ (List.nodup_cons.mp hnd).1
      rw [Dict.find?_applyAllU_not_mem U rest _ k hnr, he,
        Dict.find?_modify1_self]
    · have hk : k ≠ k0 := fun hc => (List.nodup_cons.mp hnd).1 (hc ▸ hr)
      rw [ih _ (List.nodup_cons.mp hnd).2 hr,
        Dict.find?_modify1_ne d k0 k (U k0) hk]

/-- After a mutation fold with idempotent mutators, every listed key
stores a fixed point. -/
theorem Dict.find?_applyAllU_mapfix {α : Type} (U : String → α → α)
    (ks : List String) (hU : ∀ k x, U k (U k x) = U k x) (d : Dict α)
    (k : String) (h : k ∈ ks) :
    (Dict.find? (Dict.applyAllU U ks d) k).map (U k) =
      Dict.find? (Dict.applyAllU U ks d) k := by
  induction ks generalizing d with
  | nil => simp at h
  | cons k0 rest ih =>
    rw [Dict.applyAllU]
    by_cases hr : k ∈ rest
    · exact ih _ hr
    · have he : k = k0 := by
        rcases List.mem_cons.mp h with h1 | h2
        · exact h1
        · exact absurd h2 hr
      rw [Dict.find?_applyAllU_not_mem U rest _ k hr, he,
        Dict.find?_modify1_self]
      cases Dict.find? d k0 with
      | none => rfl
      | some v => simp [hU]

/-- A mutation fold over keys whose values are already fixed points is
a no-op. -/
theorem Dict.applyAllU_of_fix {α : Type} (U : String → α → α) (ks : List String)
    (d : Dict α) (hfix : ∀ k ∈ ks, (Dict.find? d k).map (U k) = Dict.find? d k) :
    Dict.applyAllU U ks d = d := by
  induction ks with
  | nil => rfl
  | cons k0 rest ih =>
    have h0 := hfix k0 (List.mem_cons_self k0 rest)
    have hm : Dict.modify1 d k0 (U k0) = d := by
      cases hf : Dict.find? d k0 with
      | none => exact Dict.modify1_of_find?_none d k0 (U k0) hf
      | some v =>
        rw [hf] at h0
        exact Dict.modify1_of_fix d k0 (U k0) v hf (Option.some.inj h0)
    rw [Dict.applyAllU, hm]
    exact ih (fun k hk => hfix k (List.mem_cons_of_mem k0 hk))

/-- A mutation fold with idempotent mutators is idempotent. -/
theorem Dict.applyAllU_idem {α : Type} (U : String → α → α) (ks : List String)
    (d : Dict α) (hU : ∀ k x, U k (U k x) = U k x) :
    Dict.applyAllU U ks (Dict.applyAllU U ks d) = Dict.applyAllU U ks d :=
  Dict.applyAllU_of_fix U ks _
    (fun k hk => Dict.find?_applyAllU_mapfix U ks hU d k hk)

/-- A projection unaffected by the mutator passes through `modify1`. -/
theorem Dict.projD_modify1 {α β : Type} (g : α → β) (u : α → α)
    (hg : ∀ x, g (u x) = g x) (d : Dict α) (k : String) :
    Dict.projD g (Dict.modify1 d k u) = Dict.projD g d := by
  induction d with
  | nil => rfl
  | cons kv rest ih =>
    by_cases hk : kv.1 = k <;> simp [Dict.modify1, Dict.projD, hk, hg] <;>
      simpa [Dict.projD] using ih

/-- A projection unaffected by all mutators passes through a mutation
fold. -/
theorem Dict.projD_applyAllU {α β : Type} (g : α → β) (U : String → α → α)
    (hg : ∀ k x, g (U k x) = g x) (ks : List String) (d : Dict α) :
    Dict.projD g (Dict.applyAllU U ks d) = Dict.projD g d := by
  induction ks generalizing d with
  | nil => rfl
  | cons k0 rest ih =>
    rw [Dict.applyAllU, ih, Dict.projD_modify1 g (U k0) (hg k0)]

/-- Distributing a division over a mapped sum. -/
theorem sum_map_div {α : Type} (l : List α) (f : α → ℚ) (b : ℚ) :
    (l.map (fun x => f x / b)).sum = (l.map f).sum / b := by
  induction l with
  | nil => simp
  | cons x xs ih => simp [ih, add_div]

/-- Assignment at one key leaves lookups at other keys unchanged. -/
theorem Dict.find?_insert_ne {α : Type} (d : Dict α) (k j : String) (v : α)
    (h : j ≠ k) : Dict.find? (Dict.insert d k v) j = Dict.find? d j := by
  induction d with
  | nil => simp [Dict.insert, Dict.find?, Ne.symm h]
  | cons kv rest ih =>
    rw [Dict.insert]
    by_cases hk : kv.1 = k
    · have hj : kv.1 ≠ j := fun hc => h (hc ▸ hk)
      rw [if_pos hk, Dict.find?, Dict.find?, if_neg (fun hc : k = j => h hc.symm),
        if_neg hj]
    · rw [if_neg hk, Dict.find?, Dict.find?]
      by_cases hj : kv.1 = j
      · rw [if_pos hj, if_pos hj]
      · rw [if_neg hj, if_neg hj, ih]

/-- Characterization of a successful `calcAreasClasses` run over
distinct class keys fresh for the accumulator: the area dict extends
the accumulator with one `areaVal` entry per class and the total grows
by their sum. -/
theorem calcAreasClasses_ok (l : List (String × Fuel)) (acc : Dict ℚ) (t0 : ℚ)
    (d : Dict ℚ) (t : ℚ)
    (h : calcAreasClasses l (acc, t0) = .ok (d, t))
    (hnd : (l.map Prod.fst).Nodup)
    (hfresh : ∀ kv ∈ l, Dict.find? acc kv.1 = none) :
    d = acc ++ l.map (fun kv => (kv.1, areaVal kv.2)) ∧
      t = t0 + (l.map (fun kv => areaVal kv.2)).sum := by
  induction l generalizing acc t0 with
  | nil =>
    rw [calcAreasClasses] at h
    simp only [Except.ok.injEq, Prod.mk.injEq] at h
    simp [h.1, h.2]
  | cons kv rest ih =>
    obtain ⟨cls, f⟩ := kv
    rw [calcAreasClasses, calcMeanSurfaceAreaOneClass, cdiv] at h
    by_cases hz : f.particleDensity = 0
    · rw [if_pos hz] at h
      simp [Bind.bind, Except.bind] at h
    · rw [if_neg hz] at h
      simp only [Bind.bind, Except.bind] at h
      simp only [List.map_cons, List.nodup_cons] at hnd
      have hfr : Dict.find? acc cls = none :=
        hfresh (cls, f) (List.mem_cons_self _ _)
      have hfresh2 : ∀ jv ∈ rest,
          Dict.find? (Dict.insert acc cls (f.sigma * f.ovendryLoading / f.particleDensity)) jv.1 = none := by
        intro jv hjv
        have hne : jv.1 ≠ cls := by
          intro hc
          exact hnd.1 (hc ▸ List.mem_map_of_mem Prod.fst hjv)
        rw [Dict.find?_insert_ne _ _ _ _ hne]
        exact hfresh jv (List.mem_cons_of_mem _ hjv)
      obtain ⟨hd, ht⟩ := ih _ _ h hnd.2 hfresh2
      constructor
      · rw [hd, Dict.insert_of_find?_none _ _ _ hfr, List.append_assoc]
        rfl
      · rw [ht, List.map_cons, List.sum_cons, areaVal, add_assoc]

/-- Characterization of a successful `calcMSA` run over distinct
category keys: per category one `classAreasVal` dict and one
`catAreaVal` total, the grand total growing by their sum. -/
theorem calcMSA_ok (fp : List (String × Dict Fuel)) (a1 : Dict (Dict ℚ))
    (a2 : Dict ℚ) (t0 : ℚ) (ca : Dict (Dict ℚ)) (cata : Dict ℚ) (t : ℚ)
    (h : calcMSA fp (a1, a2, t0) = .ok (ca, cata, t))
    (hnd : (fp.map Prod.fst).Nodup)
    (hinner : ∀ kv ∈ fp, (kv.2.map Prod.fst).Nodup)
    (hf1 : ∀ kv ∈ fp, Dict.find? a1 kv.1 = none)
    (hf2 : ∀ kv ∈ fp, Dict.find? a2 kv.1 = none) :
    ca = a1 ++ fp.map (fun kv => (kv.1, classAreasVal kv.2)) ∧
    cata = a2 ++ fp.map (fun kv => (kv.1, catAreaVal kv.2)) ∧
    t = t0 + (fp.map (fun kv => catAreaVal kv.2)).sum := by
  induction fp generalizing a1 a2 t0 with
  | nil =>
    rw [calcMSA] at h
    simp only [Except.ok.injEq, Prod.mk.injEq] at h
    simp [h.1, h.2.1, h.2.2]
  | cons kv rest ih =>
    obtain ⟨cat, classes⟩ := kv
    rw [calcMSA] at h
    cases hr : calcAreasClasses classes ([], 0) with
    | error e =>
      rw [hr] at h
      simp [Bind.bind, Except.bind] at h
    | ok r =>
      rw [hr] at h
      simp only [Bind.bind, Except.bind] at h
      obtain ⟨r1, r2⟩ := r
      obtain ⟨hv1, hv2⟩ := calcAreasClasses_ok classes [] 0 r1 r2 hr
        (hinner (cat, classes) (List.mem_cons_self _ _)) (fun _ _ => rfl)
      simp only [List.nil_append, zero_add] at hv1 hv2
      simp only [List.map_cons, List.nodup_cons] at hnd
      have hne : ∀ jv ∈ rest, jv.1 ≠ cat := by
        intro jv hjv hc
        exact hnd.1 (hc ▸ List.mem_map_of_mem Prod.fst hjv)
      have hfr1 : ∀ jv ∈ rest, Dict.find? (Dict.insert a1 cat r1) jv.1 = none := by
        intro jv hjv
        rw [Dict.find?_insert_ne _ _ _ _ (hne jv hjv)]
        exact hf1 jv (List.mem_cons_of_mem _ hjv)
      have hfr2 : ∀ jv ∈ rest, Dict.find? (Dict.insert a2 cat r2) jv.1 = none := by
        intro jv hjv
        rw [Dict.find?_insert_ne _ _ _ _ (hne jv hjv)]
        exact hf2 jv (List.mem_cons_of_mem _ hjv)
      obtain ⟨hca, hcata, ht⟩ := ih _ _ _ h hnd.2
        (fun jv hjv => hinner jv (List.mem_cons_of_mem _ hjv)) hfr1 hfr2
      refine ⟨?_, ?_, ?_⟩
      · rw [hca, Dict.insert_of_find?_none _ _ _
          (hf1 (cat, classes) (List.mem_cons_self _ _)), List.append_assoc]
        rw [hv1]
        rfl
      · rw [hcata, Dict.insert_of_find?_none _ _ _
          (hf2 (cat, classes) (List.mem_cons_self _ _)), List.append_assoc]
        rw [hv2]
        rfl
      · rw [ht, List.map_cons, List.sum_cons, add_assoc]
        simp [hv2, catAreaVal]

/-- Characterization of a successful `calcClassWeights` run: each area
is divided by the category area, which must be non-zero as soon as a
class exists. -/
theorem calcClassWeights_ok (l : Dict ℚ) (catArea : ℚ) (acc d : Dict ℚ)
    (h : calcClassWeights l catArea acc = .ok d)
    (hnd : (l.map Prod.fst).Nodup)
    (hfresh : ∀ kv ∈ l, Dict.find? acc kv.1 = none) :
    d = acc ++ l.map (fun kv => (kv.1, kv.2 / catArea)) ∧
      (l ≠ [] → catArea ≠ 0) := by
  induction l generalizing acc with
  | nil =>
    rw [calcClassWeights] at h
    simp only [Except.ok.injEq] at h
    simp [h]
  | cons kv rest ih =>
    obtain ⟨cls, a⟩ := kv
    rw [calcClassWeights, cdiv] at h
    by_cases hz : catArea = 0
    · rw [if_pos hz] at h
      simp [Bind.bind, Except.bind] at h
    · rw [if_neg hz] at h
      simp only [Bind.bind, Except.bind] at h
      simp only [List.map_cons, List.nodup_cons] at hnd
      have hfresh2 : ∀ jv ∈ rest,
          Dict.find? (Dict.insert acc cls (a / catArea)) jv.1 = none := by
        intro jv hjv
        have hne : jv.1 ≠ cls := by
          intro hc
          exact hnd.1 (hc ▸ List.mem_map_of_mem Prod.fst hjv)
        rw [Dict.find?_insert_ne _ _ _ _ hne]
        exact hfresh jv (List.mem_cons_of_mem _ hjv)
      obtain ⟨hd, _⟩ := ih _ h hnd.2 hfresh2
      refine ⟨?_, fun _ => hz⟩
      rw [hd, Dict.insert_of_find?_none _ _ _
        (hfresh (cls, a) (List.mem_cons_self _ _)), List.append_assoc]
      rfl

/-- Characterization of a successful `calcWeights` run over distinct
category keys: one category weight (category area over total) and one
inner class-weight dict per category; the total area is non-zero as
soon as a category exists. -/
theorem calcWeights_ok (cata : Dict ℚ) (tot : ℚ) (l : List (String × Dict ℚ))
    (a1 : Dict ℚ) (a2 : Dict (Dict ℚ)) (cw : Dict ℚ) (clw : Dict (Dict ℚ))
    (h : calcWeights cata tot l (a1, a2) = .ok (cw, clw))
    (hnd : (l.map Prod.fst).Nodup)
    (hinner : ∀ kv ∈ l, (kv.2.map Prod.fst).Nodup)
    (hf1 : ∀ kv ∈ l, Dict.find? a1 kv.1 = none)
    (hf2 : ∀ kv ∈ l, Dict.find? a2 kv.1 = none) :
    cw = a1 ++ l.map (fun kv => (kv.1, (Dict.find? cata kv.1).getD 0 / tot)) ∧
    clw = a2 ++ l.map (fun kv => (kv.1,
      kv.2.map (fun jv => (jv.1, jv.2 / (Dict.find? cata kv.1).getD 0)))) ∧
    (l ≠ [] → tot ≠ 0) := by
  induction l generalizing a1 a2 with
  | nil =>
    rw [calcWeights] at h
    simp only [Except.ok.injEq, Prod.mk.injEq] at h
    simp [h.1, h.2]
  | cons kv rest ih =>
    obtain ⟨cat, classes⟩ := kv
    rw [calcWeights, cdiv] at h
    by_cases hz : tot = 0
    · rw [if_pos hz] at h
      simp [Bind.bind, Except.bind] at h
    · rw [if_neg hz] at h
      simp only [Bind.bind, Except.bind] at h
      cases hcw : calcClassWeights classes ((Dict.find? cata cat).getD 0) [] with
      | error e =>
        rw [hcw] at h
        simp at h
      | ok inner =>
        rw [hcw] at h
        simp only at h
        obtain ⟨hin, _⟩ := calcClassWeights_ok classes _ [] inner hcw
          (hinner (cat, classes) (List.mem_cons_self _ _)) (fun _ _ => rfl)
        simp only [List.nil_append] at hin
        simp only [List.map_cons, List.nodup_cons] at hnd
        have hne : ∀ jv ∈ rest, jv.1 ≠ cat := by
          intro jv hjv hc
          exact hnd.1 (hc ▸ List.mem_map_of_mem Prod.fst hjv)
        have hfr1 : ∀ jv ∈ rest,
            Dict.find? (Dict.insert a1 cat ((Dict.find? cata cat).getD 0 / tot)) jv.1 = none := by
          intro jv hjv
          rw [Dict.find?_insert_ne _ _ _ _ (hne jv hjv)]
          exact hf1 jv (List.mem_cons_of_mem _ hjv)
        have hfr2 : ∀ jv ∈ rest,
            Dict.find? (Dict.insert a2 cat inner) jv.1 = none := by
          intro jv hjv
          rw [Dict.find?_insert_ne _ _ _ _ (hne jv hjv)]
          exact hf2 jv (List.mem_cons_of_mem _ hjv)
        obtain ⟨hcw2, hclw2, _⟩ := ih _ _ h hnd.2
          (fun jv hjv => hinner jv (List.mem_cons_of_mem _ hjv)) hfr1 hfr2
        refine ⟨?_, ?_, fun _ => hz⟩
        · rw [hcw2, Dict.insert_of_find?_none _ _ _
            (hf1 (cat, classes) (List.mem_cons_self _ _)), List.append_assoc]
          rfl
        · rw [hclw2, Dict.insert_of_find?_none _ _ _
            (hf2 (cat, classes) (List.mem_cons_self _ _)), List.append_assoc]
          rw [hin]
          rfl

/-- Summing the values of a key-preserving value map. -/
theorem Dict.keys_map_key {α β : Type} (g : α → β) (d : Dict α) :
    (d.map (fun kv => (kv.1, g kv.2))).map Prod.fst = d.map Prod.fst := by
  induction d with
  | nil => rfl
  | cons kv rest ih => simp [ih]

/-- Keys of a key-preserving rebuild whose values may read the whole entry. -/
theorem Dict.keys_map_fst {α β : Type} (g : String × α → β) (d : Dict α) :
    (d.map (fun kv => (kv.1, g kv))).map Prod.fst = d.map Prod.fst := by
  induction d with
  | nil => rfl
  | cons kv rest ih => simp [ih]

/-- Value sum of a key-preserving rebuild. -/
theorem Dict.sumVals_map_key {α : Type} (d : Dict α) (g : String × α → ℚ) :
    Dict.sumVals (d.map (fun kv => (kv.1, g kv))) = (d.map g).sum := by
  induction d with
  | nil => rfl
  | cons kv rest ih => simp [Dict.sumVals, List.map_map] at ih ⊢; rw [ih]

/-- C4 counterexample: the empty complex vacuously satisfies "every
present category has positive total surface area", computing its
weighting parameters succeeds, and the category weights sum to 0, not
to 1 within 1e-9. -/
theorem c4_counterexample :
    RothermelFuelComplex.calcWeightingParameters {} =
      .ok ({} : RothermelFuelComplex) ∧
    (∀ kv ∈ ({} : RothermelFuelComplex).categoryAreas, 0 < kv.2) ∧
    ¬ |Dict.sumVals ({} : RothermelFuelComplex).categoryWeighting - 1| ≤ 1e-9 := by
  refine ⟨rfl, ?_, ?_⟩
  · intro kv hkv
    simp at hkv
  · norm_num [Dict.sumVals]

/-- C4 (amended): for every well-formed fuel complex holding at least
one particle in which every present category has positive total
surface area, after computing the weighting parameters the category
weights sum to 1 over all categories (within 1e-9) and the class
weights sum to 1 within each category (within 1e-9). -/
theorem c4_weights_sum (c c' : RothermelFuelComplex)
    (hWF : c.WF) (hne : c.fuelParameters ≠ [])
    (h : RothermelFuelComplex.calcWeightingParameters c = .ok c')
    (hpos : ∀ kv ∈ c'.categoryAreas, 0 < kv.2) :
    |Dict.sumVals c'.categoryWeighting - 1| ≤ 1e-9 ∧
    ∀ kv ∈ c'.classWeighting, |Dict.sumVals kv.2 - 1| ≤ 1e-9 := by
  obtain ⟨hnd, hinner⟩ := hWF
  rw [RothermelFuelComplex.calcWeightingParameters] at h
  cases hm : calcMSA c.fuelParameters ([], [], 0) with
  | error e =>
    rw [hm] at h
    simp [Bind.bind, Except.bind] at h
  | ok r =>
    rw [hm] at h
    simp only [Bind.bind, Except.bind] at h
    cases hw : calcWeights r.2.1 r.2.2 r.1 ([], []) with
    | error e =>
      rw [hw] at h
      simp at h
    | ok w =>
      rw [hw] at h
      simp only at h
      have hc' : c' = { c with
          classAreas := r.1
          categoryAreas := r.2.1
          totalArea := r.2.2
          categoryWeighting := w.1
          classWeighting := w.2 } := (Except.ok.inj h).symm
      obtain ⟨hca, hcata, htot⟩ := calcMSA_ok c.fuelParameters [] [] 0
        r.1 r.2.1 r.2.2 hm hnd hinner (fun _ _ => rfl) (fun _ _ => rfl)
      simp only [List.nil_append] at hca hcata
      rw [zero_add] at htot
      have hndca : (r.1.map Prod.fst).Nodup := by
        rw [hca, Dict.keys_map_key]
        exact hnd
      have hinnerca : ∀ kv ∈ r.1, (kv.2.map Prod.fst).Nodup := by
        intro kv hkv
        rw [hca] at hkv
        obtain ⟨kv0, hkv0, rfl⟩ := List.mem_map.mp hkv
        show ((Dict.projD areaVal kv0.2).map Prod.fst).Nodup
        rw [Dict.projD, Dict.keys_map_key]
        exact hinner kv0 hkv0
      obtain ⟨hcw, hclw, htotne⟩ := calcWeights_ok r.2.1 r.2.2 r.1 [] []
        w.1 w.2 hw hndca hinnerca (fun _ _ => rfl) (fun _ _ => rfl)
      simp only [List.nil_append] at hcw hclw
      have hcane : r.1 ≠ [] := by
        rw [hca]
        intro hcontra
        exact hne (List.map_eq_nil_iff.mp hcontra)
      have htotne2 : r.2.2 ≠ 0 := htotne hcane
      have hndcata : ((r.2.1 : Dict ℚ).map Prod.fst).Nodup := by
        rw [hcata, Dict.keys_map_key]
        exact hnd
      have hlook : ∀ kv ∈ c.fuelParameters,
          Dict.find? r.2.1 kv.1 = some (catAreaVal kv.2) := by
        intro kv hkv
        apply Dict.find?_eq_of_mem_nodup _ _ _ hndcata
        rw [hcata]
        exact List.mem_map_of_mem _ hkv
      have hpos2 : ∀ kv ∈ c.fuelParameters, 0 < catAreaVal kv.2 := by
        intro kv hkv
        apply hpos (kv.1, catAreaVal kv.2)
        rw [hc']
        show (kv.1, catAreaVal kv.2) ∈ r.2.1
        rw [hcata]
        exact List.mem_map_of_mem _ hkv
      constructor
      · rw [hc']
        show |Dict.sumVals w.1 - 1| ≤ 1e-9
        have hsum : Dict.sumVals w.1 = 1 := by
          rw [hcw, Dict.sumVals_map_key, hca, List.map_map]
          have hpt : ∀ kv ∈ c.fuelParameters,
              ((fun kv => (Dict.find? r.2.1 kv.1).getD 0 / r.2.2) ∘
                (fun kv => (kv.1, classAreasVal kv.2))) kv =
              catAreaVal kv.2 / r.2.2 := by
            intro kv hkv
            show (Dict.find? r.2.1 kv.1).getD 0 / r.2.2 = catAreaVal kv.2 / r.2.2
            rw [hlook kv hkv]
            rfl
          rw [List.map_congr_left hpt, sum_map_div, ← htot, div_self htotne2]
        rw [hsum]
        norm_num
      · rw [hc']
        show ∀ kv ∈ w.2, |Dict.sumVals kv.2 - 1| ≤ 1e-9
        intro kv hkv
        rw [hclw] at hkv
        obtain ⟨kv0, hkv0, rfl⟩ := List.mem_map.mp hkv
        rw [hca] at hkv0
        obtain ⟨kvf, hkvf, rfl⟩ := List.mem_map.mp hkv0
        show |Dict.sumVals ((classAreasVal kvf.2).map
          (fun jv => (jv.1, jv.2 / (Dict.find? r.2.1 kvf.1).getD 0))) - 1| ≤ 1e-9
        rw [hlook kvf hkvf]
        show |Dict.sumVals ((classAreasVal kvf.2).map
          (fun jv => (jv.1, jv.2 / catAreaVal kvf.2))) - 1| ≤ 1e-9
        have hsum : Dict.sumVals ((classAreasVal kvf.2).map
            (fun jv => (jv.1, jv.2 / catAreaVal kvf.2))) = 1 := by
          rw [Dict.sumVals_map_key, classAreasVal, Dict.projD, List.map_map]
          have hpt : ∀ jv ∈ kvf.2,
              ((fun jv => jv.2 / catAreaVal kvf.2) ∘
                (fun kv => (kv.1, areaVal kv.2))) jv =
              areaVal jv.2 / catAreaVal kvf.2 := fun _ _ => rfl
          rw [List.map_congr_left hpt, sum_map_div]
          exact div_self (ne_of_gt (hpos2 kvf hkvf))
        rw [hsum]
        norm_num

/-- C4 witness: the single-particle demo complex satisfies the amended
claim, its category area being `119/32 > 0`. -/
theorem c4_witness :
    |Dict.sumVals demoWeighted.categoryWeighting - 1| ≤ 1e-9 ∧
    ∀ kv ∈ demoWeighted.classWeighting, |Dict.sumVals kv.2 - 1| ≤ 1e-9 :=
  c4_weights_sum demoComplex demoWeighted
    (by constructor
        · decide
        · intro kv hkv
          simp [demoComplex, RothermelFuelComplex.setFuelParams,
            RothermelFuelComplex.setExtMoisture, RothermelFuelComplex.setDepth,
            Dict.insert, Dict.find?] at hkv
          simp [hkv, Dict.keys])
    (by decide)
    demo_weights
    (by intro kv hkv
        norm_num [demoWeighted, demoComplexRec, demoParticleRec] at hkv
        rw [hkv]
        norm_num)

/-- With a zero category area and at least one class, the class-weight
loop fails on its first division. -/
theorem calcClassWeights_err (l : Dict ℚ) (acc : Dict ℚ) (hne : l ≠ []) :
    isFailure (calcClassWeights l 0 acc) = true := by
  cases l with
  | nil => exact absurd rfl hne
  | cons kv rest =>
    obtain ⟨cls, a⟩ := kv
    rw [calcClassWeights, cdiv, if_pos rfl]
    simp [Bind.bind, Except.bind, isFailure]

/-- The weighting loop fails as soon as some category has a zero
looked-up area but a non-empty class dict (either its own class
division or an earlier division fails). -/
theorem calcWeights_err (cata : Dict ℚ) (tot : ℚ)
    (l : List (String × Dict ℚ)) (acc : Dict ℚ × Dict (Dict ℚ))
    (hbad : ∃ kv ∈ l, (Dict.find? cata kv.1).getD 0 = 0 ∧ kv.2 ≠ []) :
    isFailure (calcWeights cata tot l acc) = true := by
  induction l generalizing acc with
  | nil =>
    obtain ⟨kv, hkv, _⟩ := hbad
    simp at hkv
  | cons kv0 rest ih =>
    obtain ⟨cat, classes⟩ := kv0
    rw [calcWeights, cdiv]
    by_cases hz : tot = 0
    · rw [if_pos hz]
      simp [Bind.bind, Except.bind, isFailure]
    · rw [if_neg hz]
      simp only [Bind.bind, Except.bind]
      obtain ⟨kv, hkv, hz2, hne2⟩ := hbad
      rcases List.mem_cons.mp hkv with he | hr
      · subst he
        have hz2b : (Dict.find? cata cat).getD 0 = 0 := hz2
        have hne2b : classes ≠ [] := hne2
        rw [hz2b]
        have herr := calcClassWeights_err classes [] hne2b
        cases hcw : calcClassWeights classes 0 [] with
        | error e => simp [isFailure]
        | ok inner =>
          rw [hcw] at herr
          simp [isFailure] at herr
      · cases hcw : calcClassWeights classes ((Dict.find? cata cat).getD 0) [] with
        | error e => simp [isFailure]
        | ok inner =>
          simp only
          exact ih _ ⟨kv, hr, hz2, hne2⟩

/-- C7: (1) for a well-formed complex in which some present category
holds classes whose non-negative loadings total zero, computing the
weighting parameters fails with a division error (it is not silently
special-cased); (2) the Albini live-extinction computation fails when a
live 1-hr particle with non-zero loading is present while the
live-fuel weighted denominator is zero. -/
theorem c7_degenerate_failures
    (c1 : RothermelFuelComplex) (cat : String) (classes : Dict Fuel)
    (hWF : c1.WF)
    (hcat : Dict.find? c1.fuelParameters cat = some classes)
    (hcne : classes ≠ [])
    (hnn : ∀ kv ∈ classes, 0 ≤ kv.2.ovendryLoading)
    (hzero : (classes.map (fun kv => kv.2.ovendryLoading)).sum = 0)
    (p : Prims) (c2 : RothermelFuelComplex) (live : Dict Fuel) (oneHr : Fuel)
    (h2live : Dict.find? c2.fuelParameters LIVE = some live)
    (h2one : Dict.find? live ONEHR = some oneHr)
    (h2load : oneHr.ovendryLoading ≠ 0)
    (h2den : albiniLiveDenom p live = 0) :
    isFailure (RothermelFuelComplex.calcWeightingParameters c1) = true ∧
    isFailure (AlbiniFuelComplex.calcLivingExtMoisture p c2) = true := by
  constructor
  · rw [RothermelFuelComplex.calcWeightingParameters]
    cases hm : calcMSA c1.fuelParameters ([], [], 0) with
    | error e => simp [Bind.bind, Except.bind, isFailure]
    | ok r =>
      simp only [Bind.bind, Except.bind]
      have hall : ∀ kv ∈ classes, kv.2.ovendryLoading = 0 := by
        intro kv hkv
        by_contra hne0
        have hlt : 0 < kv.2.ovendryLoading :=
          lt_of_le_of_ne (hnn kv hkv) (Ne.symm hne0)
        have hle := List.single_le_sum
          (l := classes.map (fun kv => kv.2.ovendryLoading))
          (by intro x hx
              obtain ⟨jv, hjv, rfl⟩ := List.mem_map.mp hx
              exact hnn jv hjv)
          kv.2.ovendryLoading (List.mem_map_of_mem _ hkv)
        rw [hzero] at hle
        exact absurd (lt_of_lt_of_le hlt hle) (lt_irrefl 0)
      have hcatzero : catAreaVal classes = 0 := by
        rw [catAreaVal]
        apply List.sum_eq_zero
        intro x hx
        obtain ⟨kv, hkv, rfl⟩ := List.mem_map.mp hx
        rw [areaVal, hall kv hkv]
        simp
      obtain ⟨hca, hcata, htot⟩ := calcMSA_ok c1.fuelParameters [] [] 0
        r.1 r.2.1 r.2.2 hm hWF.1 hWF.2 (fun _ _ => rfl) (fun _ _ => rfl)
      simp only [List.nil_append] at hca hcata
      have hmem := Dict.find?_some_mem hcat
      have hndcata : ((r.2.1 : Dict ℚ).map Prod.fst).Nodup := by
        rw [hcata, Dict.keys_map_key]
        exact hWF.1
      have hlook : (Dict.find? r.2.1 cat).getD 0 = 0 := by
        have hfind : Dict.find? r.2.1 cat = some (catAreaVal classes) := by
          apply Dict.find?_eq_of_mem_nodup _ _ _ hndcata
          rw [hcata]
          exact List.mem_map_of_mem _ hmem
        rw [hfind, hcatzero]
        rfl
      have herr := calcWeights_err r.2.1 r.2.2 r.1 ([], [])
        ⟨(cat, classAreasVal classes), by
          constructor
          · rw [hca]
            exact List.mem_map_of_mem _ hmem
          · refine ⟨hlook, ?_⟩
            intro hc
            exact hcne (List.map_eq_nil_iff.mp hc)⟩
      cases hw : calcWeights r.2.1 r.2.2 r.1 ([], []) with
      | error e => simp [isFailure]
      | ok w =>
        rw [hw] at herr
        simp [isFailure] at herr
  · rw [AlbiniFuelComplex.calcLivingExtMoisture]
    simp only [h2live, h2one, if_neg h2load, AlbiniFuelComplex.calcWPrime]
    cases hd : Dict.find? c2.fuelParameters DEAD with
    | none => simp [Bind.bind, Except.bind, isFailure]
    | some dead =>
      simp only [h2live, h2den, cdiv, if_pos rfl]
      simp [Bind.bind, Except.bind, isFailure]

/-- C7 witness: a dead-only complex whose single particle has zero
loading fails in the weighting division, and a dead/live complex whose
live denominator vanishes (zero exponential) fails in the Albini
W-prime division. -/
theorem c7_witness :
    isFailure (RothermelFuelComplex.calcWeightingParameters zeroLoadComplex) = true ∧
    isFailure (AlbiniFuelComplex.calcLivingExtMoisture zeroExpPrims liveDeadComplex) = true :=
  c7_degenerate_failures zeroLoadComplex DEAD
    [(ONEHR, { defaultFuel with sigma := 3500 })]
    (by constructor
        · decide
        · intro kv hkv
          simp [zeroLoadComplex, RothermelFuelComplex.setFuelParams,
            Dict.insert, Dict.find?] at hkv
          simp [hkv, Dict.keys])
    rfl
    (List.cons_ne_nil _ _)
    (by intro kv hkv
        simp only [List.mem_singleton] at hkv
        rw [hkv]
        norm_num [defaultFuel])
    (by norm_num [defaultFuel])
    zeroExpPrims liveDeadComplex
    [(ONEHR, { defaultFuel with sigma := 1500, ovendryLoading := 23/1000 })]
    { defaultFuel with sigma := 1500, ovendryLoading := 23/1000 }
    rfl
    rfl
    (by norm_num [defaultFuel])
    (by norm_num [albiniLiveDenom, zeroExpPrims, defaultFuel])

/-- Reading through a projection-equal pair of dicts gives
projection-equal values. -/
theorem projD_read_eq {α β : Type} (g : α → β) (a : α) (d1 d2 : Dict α)
    (h : Dict.projD g d1 = Dict.projD g d2) (j : String) :
    g ((Dict.find? d1 j).getD a) = g ((Dict.find? d2 j).getD a) := by
  have h1 := congrArg (fun d => Dict.find? d j) h
  simp only [Dict.find?_projD] at h1
  cases hc1 : Dict.find? d1 j <;> cases hc2 : Dict.find? d2 j <;>
    rw [hc1, hc2] at h1 <;> simp_all

/-- The surface-area loop only reads σ, loading and particle density. -/
theorem calcAreasClasses_congr (d1 d2 : List (String × Fuel)) (acc : Dict ℚ × ℚ)
    (h : Dict.projD geoProj d1 = Dict.projD geoProj d2) :
    calcAreasClasses d1 acc = calcAreasClasses d2 acc := by
  induction d1 generalizing d2 acc with
  | nil =>
    cases d2 with
    | nil => rfl
    | cons kv rest => simp [Dict.projD] at h
  | cons kv rest ih =>
    cases d2 with
    | nil => simp [Dict.projD] at h
    | cons kv2 rest2 =>
      simp only [Dict.projD, List.map_cons, List.cons.injEq, Prod.mk.injEq] at h
      obtain ⟨⟨hk, hg⟩, hrest⟩ := h
      have hs : kv.2.sigma = kv2.2.sigma := congrArg (fun t => t.1) hg
      have hl : kv.2.ovendryLoading = kv2.2.ovendryLoading :=
        congrArg (fun t => t.2.1) hg
      have hdn : kv.2.particleDensity = kv2.2.particleDensity :=
        congrArg (fun t => t.2.2) hg
      obtain ⟨cls, f⟩ := kv
      obtain ⟨cls2, f2⟩ := kv2
      simp only at hk hs hl hdn
      subst hk
      rw [calcAreasClasses, calcAreasClasses, calcMeanSurfaceAreaOneClass,
        calcMeanSurfaceAreaOneClass, hs, hl, hdn]
      cases cdiv (f2.sigma * f2.ovendryLoading) f2.particleDensity with
      | error e => simp [Bind.bind, Except.bind]
      | ok a =>
        simp only [Bind.bind, Except.bind]
        exact ih rest2 _ hrest

/-- The whole surface-area pass only reads σ, loading and particle
density of each particle. -/
theorem calcMSA_congr (fp1 fp2 : List (String × Dict Fuel))
    (acc : Dict (Dict ℚ) × Dict ℚ × ℚ)
    (h : Dict.projD (Dict.projD geoProj) fp1 = Dict.projD (Dict.projD geoProj) fp2) :
    calcMSA fp1 acc = calcMSA fp2 acc := by
  induction fp1 generalizing fp2 acc with
  | nil =>
    cases fp2 with
    | nil => rfl
    | cons kv rest => simp [Dict.projD] at h
  | cons kv rest ih =>
    cases fp2 with
    | nil => simp [Dict.projD] at h
    | cons kv2 rest2 =>
      simp only [Dict.projD, List.map_cons, List.cons.injEq, Prod.mk.injEq] at h
      obtain ⟨⟨hk, hg⟩, hrest⟩ := h
      obtain ⟨cat, classes⟩ := kv
      obtain ⟨cat2, classes2⟩ := kv2
      simp only at hk hg
      subst hk
      rw [calcMSA, calcMSA,
        calcAreasClasses_congr classes classes2 ([], 0) (by exact hg)]
      cases calcAreasClasses classes2 ([], 0) with
      | error e => simp [Bind.bind, Except.bind]
      | ok r =>
        simp only [Bind.bind, Except.bind]
        exact ih rest2 _ hrest

/-- The per-category aggregation sums only read the `aggProj` fields. -/
theorem catAggSums_congr (strat : FuelStrategy) (wgts : List (String × ℚ))
    (inner1 inner2 : Dict Fuel)
    (h : Dict.projD aggProj inner1 = Dict.projD aggProj inner2) :
    catAggSums strat wgts inner1 = catAggSums strat wgts inner2 := by
  rw [catAggSums, catAggSums]
  apply List.foldl_ext
  intro s jv _
  have hr := projD_read_eq aggProj defaultFuel inner1 inner2 h jv.1
  have h1 : ((Dict.find? inner1 jv.1).getD defaultFuel).ovendryLoading =
      ((Dict.find? inner2 jv.1).getD defaultFuel).ovendryLoading :=
    congrArg (fun t => t.1) hr
  have h2 : ((Dict.find? inner1 jv.1).getD defaultFuel).totMineralContent =
      ((Dict.find? inner2 jv.1).getD defaultFuel).totMineralContent :=
    congrArg (fun t => t.2.1) hr
  have h3 : ((Dict.find? inner1 jv.1).getD defaultFuel).heatContent =
      ((Dict.find? inner2 jv.1).getD defaultFuel).heatContent :=
    congrArg (fun t => t.2.2.1) hr
  have h4 : ((Dict.find? inner1 jv.1).getD defaultFuel).effMineralContent =
      ((Dict.find? inner2 jv.1).getD defaultFuel).effMineralContent :=
    congrArg (fun t => t.2.2.2.1) hr
  have h5 : ((Dict.find? inner1 jv.1).getD defaultFuel).fuelMoisture =
      ((Dict.find? inner2 jv.1).getD defaultFuel).fuelMoisture :=
    congrArg (fun t => t.2.2.2.2) hr
  simp only [h1, h2, h3, h4, h5]

/-- The per-category aggregation only reads the `aggProj` fields of the
particle map. -/
theorem aggCats_congr (strat : FuelStrategy) (cw : Dict ℚ) (clw : Dict (Dict ℚ))
    (fp1 fp2 : Dict (Dict Fuel))
    (h : Dict.projD (Dict.projD aggProj) fp1 = Dict.projD (Dict.projD aggProj) fp2) :
    aggCats strat cw clw fp1 = aggCats strat cw clw fp2 := by
  rw [aggCats, aggCats]
  apply List.foldl_ext
  intro acc kv _
  rw [catAggSums_congr strat _ _ _
    (projD_read_eq (Dict.projD aggProj) [] fp1 fp2 h kv.1)]

/-- The complex-level sums only read the `geoProj` fields per class. -/
theorem catSigmaPrBd_congr (wgts : List (String × ℚ))
    (inner1 inner2 : Dict Fuel) (pr0 bd0 : ℚ)
    (h : Dict.projD geoProj inner1 = Dict.projD geoProj inner2) :
    catSigmaPrBd wgts inner1 pr0 bd0 = catSigmaPrBd wgts inner2 pr0 bd0 := by
  rw [catSigmaPrBd, catSigmaPrBd]
  apply List.foldl_ext
  intro s jv _
  have hr := projD_read_eq geoProj defaultFuel inner1 inner2 h jv.1
  have h1 : ((Dict.find? inner1 jv.1).getD defaultFuel).sigma =
      ((Dict.find? inner2 jv.1).getD defaultFuel).sigma :=
    congrArg (fun t => t.1) hr
  have h2 : ((Dict.find? inner1 jv.1).getD defaultFuel).ovendryLoading =
      ((Dict.find? inner2 jv.1).getD defaultFuel).ovendryLoading :=
    congrArg (fun t => t.2.1) hr
  have h3 : ((Dict.find? inner1 jv.1).getD defaultFuel).particleDensity =
      ((Dict.find? inner2 jv.1).getD defaultFuel).particleDensity :=
    congrArg (fun t => t.2.2) hr
  simp only [h1, h2, h3]

/-- The complex-level aggregation only reads the `geoProj` fields of
the particle map. -/
theorem aggComplexSums_congr (cw : Dict ℚ) (clw : Dict (Dict ℚ))
    (fp1 fp2 : Dict (Dict Fuel))
    (h : Dict.projD (Dict.projD geoProj) fp1 = Dict.projD (Dict.projD geoProj) fp2) :
    aggComplexSums cw clw fp1 = aggComplexSums cw clw fp2 := by
  rw [aggComplexSums, aggComplexSums]
  apply List.foldl_ext
  intro acc kv _
  rw [catSigmaPrBd_congr _ _ _ acc.2.1 acc.2.2
    (projD_read_eq (Dict.projD geoProj) [] fp1 fp2 h kv.1)]

/-- Recomputing the net fuel loading twice equals doing it once. -/
theorem uNet_uNet (strat : FuelStrategy) (f : Fuel) :
    uNet strat (uNet strat f) = uNet strat f := rfl

/-- The in-place net-loading refresh leaves every projection that skips
`netFuelLoading` unchanged. -/
theorem netUpdAll_projD {β : Type} (strat : FuelStrategy) (g : Fuel → β)
    (hg : ∀ f, g (uNet strat f) = g f) (cw : Dict ℚ) (clw : Dict (Dict ℚ))
    (fp : Dict (Dict Fuel)) :
    Dict.projD (Dict.projD g) (netUpdAll strat cw clw fp) =
      Dict.projD (Dict.projD g) fp := by
  rw [netUpdAll]
  exact Dict.projD_applyAllU (Dict.projD g) _
    (fun cat inner => Dict.projD_applyAllU g _ (fun _ f => hg f) _ inner)
    (Dict.keys cw) fp

/-- The in-place net-loading refresh is idempotent. -/
theorem netUpdAll_idem (strat : FuelStrategy) (cw : Dict ℚ)
    (clw : Dict (Dict ℚ)) (fp : Dict (Dict Fuel)) :
    netUpdAll strat cw clw (netUpdAll strat cw clw fp) =
      netUpdAll strat cw clw fp := by
  simp only [netUpdAll]
  exact Dict.applyAllU_idem _ _ _
    (fun cat inner => Dict.applyAllU_idem _ _ _ (fun _ f => uNet_uNet strat f))

/-- C8: `compute` is idempotent.  A successfully computed complex is a
fixed point of `compute`: recomputing with unchanged particles, depth
and extinction moistures succeeds and returns the very same state, in
particular the same class/category weights and the same per-category
and whole-complex aggregates. -/
theorem c8_compute_idem (p : Prims) (strat : FuelStrategy)
    (A : Prims → ℚ → ℚ) (c c' : RothermelFuelComplex)
    (h : RothermelFuelComplex.compute p strat A c = .ok c') :
    RothermelFuelComplex.compute p strat A c' = .ok c' := by
  rw [RothermelFuelComplex.compute] at h
  cases hw : RothermelFuelComplex.calcWeightingParameters c with
  | error e =>
    rw [hw] at h
    simp [Bind.bind, Except.bind] at h
  | ok c1 =>
    rw [hw] at h
    simp only [Bind.bind, Except.bind] at h
    rw [RothermelFuelComplex.calcWeightingParameters] at hw
    cases hm : calcMSA c.fuelParameters ([], [], 0) with
    | error e =>
      rw [hm] at hw
      simp [Bind.bind, Except.bind] at hw
    | ok r =>
      rw [hm] at hw
      simp only [Bind.bind, Except.bind] at hw
      cases hwt : calcWeights r.2.1 r.2.2 r.1 ([], []) with
      | error e =>
        rw [hwt] at hw
        simp at hw
      | ok w =>
        rw [hwt] at hw
        simp only at hw
        have hc1 : c1 = { c with
            classAreas := r.1
            categoryAreas := r.2.1
            totalArea := r.2.2
            categoryWeighting := w.1
            classWeighting := w.2 } := (Except.ok.inj hw).symm
        subst hc1
        simp only [RothermelFuelComplex.aggregateIntoCategories,
          RothermelFuelComplex.aggregateIntoComplex,
          RothermelFuelComplex.setSigma] at h
        by_cases hsig : (aggComplexSums w.1 w.2
            (netUpdAll strat w.1 w.2 c.fuelParameters)).1 ≤ 0
        · rw [if_pos hsig] at h
          simp at h
        · rw [if_neg hsig] at h
          have hc' := (Except.ok.inj h).symm
          subst hc'
          rw [RothermelFuelComplex.compute]
          have hmsa2 : calcMSA (netUpdAll strat w.1 w.2 c.fuelParameters)
              ([], [], 0) = .ok r := by
            rw [calcMSA_congr _ c.fuelParameters _
              (netUpdAll_projD strat geoProj (fun f => rfl) w.1 w.2 c.fuelParameters)]
            exact hm
          have hwp2 : RothermelFuelComplex.calcWeightingParameters
              { c with
                classAreas := r.1
                categoryAreas := r.2.1
                totalArea := r.2.2
                categoryWeighting := w.1
                classWeighting := w.2
                fuelParameters := netUpdAll strat w.1 w.2 c.fuelParameters
                netFuelLoading := (aggCats strat w.1 w.2 c.fuelParameters).1
                heatContent := (aggCats strat w.1 w.2 c.fuelParameters).2.1
                effMineralContent := (aggCats strat w.1 w.2 c.fuelParameters).2.2.1
                fuelMoisture := (aggCats strat w.1 w.2 c.fuelParameters).2.2.2
                bulkDensity := (aggComplexSums w.1 w.2
                  (netUpdAll strat w.1 w.2 c.fuelParameters)).2.2 / c.depth
                packingRatio := (aggComplexSums w.1 w.2
                  (netUpdAll strat w.1 w.2 c.fuelParameters)).2.1 / c.depth
                sigma := (aggComplexSums w.1 w.2
                  (netUpdAll strat w.1 w.2 c.fuelParameters)).1
                optimalPacking := 3.348 * p.rpow (aggComplexSums w.1 w.2
                  (netUpdAll strat w.1 w.2 c.fuelParameters)).1 (-0.8189)
                maxPotentialVelocity := p.rpow (aggComplexSums w.1 w.2
                    (netUpdAll strat w.1 w.2 c.fuelParameters)).1 1.5 /
                  (495 + 0.0594 * p.rpow (aggComplexSums w.1 w.2
                    (netUpdAll strat w.1 w.2 c.fuelParameters)).1 1.5)
                exponentA := A p (aggComplexSums w.1 w.2
                  (netUpdAll strat w.1 w.2 c.fuelParameters)).1
                heatingEfficiency := p.exp (-138 / (aggComplexSums w.1 w.2
                  (netUpdAll strat w.1 w.2 c.fuelParameters)).1) } =
              .ok { c with
                classAreas := r.1
                categoryAreas := r.2.1
                totalArea := r.2.2
                categoryWeighting := w.1
                classWeighting := w.2
                fuelParameters := netUpdAll strat w.1 w.2 c.fuelParameters
                netFuelLoading := (aggCats strat w.1 w.2 c.fuelParameters).1
                heatContent := (aggCats strat w.1 w.2 c.fuelParameters).2.1
                effMineralContent := (aggCats strat w.1 w.2 c.fuelParameters).2.2.1
                fuelMoisture := (aggCats strat w.1 w.2 c.fuelParameters).2.2.2
                bulkDensity := (aggComplexSums w.1 w.2
                  (netUpdAll strat w.1 w.2 c.fuelParameters)).2.2 / c.depth
                packingRatio := (aggComplexSums w.1 w.2
                  (netUpdAll strat w.1 w.2 c.fuelParameters)).2.1 / c.depth
                sigma := (aggComplexSums w.1 w.2
                  (netUpdAll strat w.1 w.2 c.fuelParameters)).1
                optimalPacking := 3.348 * p.rpow (aggComplexSums w.1 w.2
                  (netUpdAll strat w.1 w.2 c.fuelParameters)).1 (-0.8189)
                maxPotentialVelocity := p.rpow (aggComplexSums w.1 w.2
                    (netUpdAll strat w.1 w.2 c.fuelParameters)).1 1.5 /
                  (495 + 0.0594 * p.rpow (aggComplexSums w.1 w.2
                    (netUpdAll strat w.1 w.2 c.fuelParameters)).1 1.5)
                exponentA := A p (aggComplexSums w.1 w.2
                  (netUpdAll strat w.1 w.2 c.fuelParameters)).1
                heatingEfficiency := p.exp (-138 / (aggComplexSums w.1 w.2
                  (netUpdAll strat w.1 w.2 c.fuelParameters)).1) } := by
            rw [RothermelFuelComplex.calcWeightingParameters]
            simp only [hmsa2, hwt, Bind.bind, Except.bind]
          rw [hwp2]
          simp only [Bind.bind, Except.bind,
            RothermelFuelComplex.aggregateIntoCategories,
            RothermelFuelComplex.aggregateIntoComplex,
            RothermelFuelComplex.setSigma, netUpdAll_idem,
            aggCats_congr strat w.1 w.2 (netUpdAll strat w.1 w.2 c.fuelParameters)
              c.fuelParameters
              (netUpdAll_projD strat aggProj (fun f => rfl) w.1 w.2 c.fuelParameters),
            if_neg hsig]

/-- C8 witness: the computed demo complex is a fixed point of
`compute`. -/
theorem c8_witness :
    RothermelFuelComplex.compute onePrims rothermelStrategy RothermelExponentA
      demoComputed = .ok demoComputed :=
  c8_compute_idem onePrims rothermelStrategy RothermelExponentA demoComplex
    demoComputed demo_compute

/-- Mutation keeps the key list. -/
theorem Dict.keys_modify1 {α : Type} (d : Dict α) (k : String) (u : α → α) :
    (Dict.modify1 d k u).map Prod.fst = d.map Prod.fst := by
  induction d with
  | nil => rfl
  | cons kv rest ih =>
    by_cases hk : kv.1 = k <;> simp [Dict.modify1, hk, ih]

/-- A mutation fold keeps the key list. -/
theorem Dict.keys_applyAllU {α : Type} (U : String → α → α) (ks : List String)
    (d : Dict α) :
    (Dict.applyAllU U ks d).map Prod.fst = d.map Prod.fst := by
  induction ks generalizing d with
  | nil => rfl
  | cons k0 rest ih =>
    rw [Dict.applyAllU, ih, Dict.keys_modify1]

/-- The moisture component of the per-category accumulation is the
class-weighted moisture sum. -/
theorem catAggSums_moist (strat : FuelStrategy) (wgts : List (String × ℚ))
    (inner : Dict Fuel) :
    (catAggSums strat wgts inner).2.2.2 = catMoistVal wgts inner := by
  rw [catAggSums, catMoistVal]
  suffices hgen : ∀ (l : List (String × ℚ)) (acc : ℚ × ℚ × ℚ × ℚ),
      (l.foldl (fun s jv =>
        let f := (Dict.find? inner jv.1).getD defaultFuel
        (s.1 + jv.2 * strat.calcNetFuelLoading f.ovendryLoading f.totMineralContent,
         s.2.1 + jv.2 * f.heatContent,
         s.2.2.1 + jv.2 * f.effMineralContent,
         s.2.2.2 + jv.2 * f.fuelMoisture)) acc).2.2.2 =
      acc.2.2.2 + (l.map (fun jv => jv.2 * readMoist inner jv.1)).sum by
    rw [hgen]
    simp
  intro l
  induction l with
  | nil => intro acc; simp
  | cons jv rest ih =>
    intro acc
    rw [List.foldl_cons, ih, List.map_cons, List.sum_cons]
    simp [readMoist, add_assoc]

/-- Over distinct category keys, the aggregated fuel-moisture dict is
the per-category weighted moisture sum, keyed in weighting order. -/
theorem aggCats_fm (strat : FuelStrategy) (cw : Dict ℚ) (clw : Dict (Dict ℚ))
    (fp : Dict (Dict Fuel)) (hnd : (cw.map Prod.fst).Nodup) :
    (aggCats strat cw clw fp).2.2.2 = cw.map (fun kv =>
      (kv.1, catMoistVal ((Dict.find? clw kv.1).getD [])
        ((Dict.find? fp kv.1).getD []))) := by
  rw [aggCats]
  suffices hgen : ∀ (l : List (String × ℚ))
      (acc : Dict ℚ × Dict ℚ × Dict ℚ × Dict ℚ),
      (l.map Prod.fst).Nodup →
      (∀ k ∈ l.map Prod.fst, Dict.find? acc.2.2.2 k = none) →
      (l.foldl (fun acc kv =>
        let s := catAggSums strat ((Dict.find? clw kv.1).getD [])
          ((Dict.find? fp kv.1).getD [])
        (Dict.insert acc.1 kv.1 s.1, Dict.insert acc.2.1 kv.1 s.2.1,
         Dict.insert acc.2.2.1 kv.1 s.2.2.1,
         Dict.insert acc.2.2.2 kv.1 s.2.2.2)) acc).2.2.2 =
      acc.2.2.2 ++ l.map (fun kv =>
        (kv.1, catMoistVal ((Dict.find? clw kv.1).getD [])
          ((Dict.find? fp kv.1).getD []))) by
    rw [hgen cw ([], [], [], []) hnd (fun _ _ => rfl)]
    rfl
  intro l
  induction l with
  | nil => intro acc _ _; simp
  | cons kv rest ih =>
    intro acc hnd2 hfresh
    simp only [List.map_cons, List.nodup_cons] at hnd2
    rw [List.foldl_cons, List.map_cons]
    have hfr : Dict.find? acc.2.2.2 kv.1 = none :=
      hfresh kv.1 (by simp)
    have hfresh2 : ∀ k ∈ rest.map Prod.fst,
        Dict.find? (Dict.insert acc.2.2.2 kv.1
          (catAggSums strat ((Dict.find? clw kv.1).getD [])
            ((Dict.find? fp kv.1).getD [])).2.2.2) k = none := by
      intro k hk
      have hne : k ≠ kv.1 := fun hc => hnd2.1 (hc ▸ hk)
      rw [Dict.find?_insert_ne _ _ _ _ hne]
      exact hfresh k (by simp [hk])
    rw [ih _ hnd2.2 hfresh2]
    show Dict.insert acc.2.2.2 kv.1 (catAggSums strat
        ((Dict.find? clw kv.1).getD []) ((Dict.find? fp kv.1).getD [])).2.2.2 ++
      rest.map (fun kv => (kv.1, catMoistVal ((Dict.find? clw kv.1).getD [])
        ((Dict.find? fp kv.1).getD []))) =
      acc.2.2.2 ++ (kv.1, catMoistVal ((Dict.find? clw kv.1).getD [])
        ((Dict.find? fp kv.1).getD [])) ::
      rest.map (fun kv => (kv.1, catMoistVal ((Dict.find? clw kv.1).getD [])
        ((Dict.find? fp kv.1).getD [])))
    rw [Dict.insert_of_find?_none _ _ _ hfr, catAggSums_moist, List.append_assoc]
    rfl

/-- Updating the moisture read at one class key shifts the weighted
moisture sum by exactly the weight times the moisture change. -/
theorem catMoistVal_update (wgts : Dict ℚ) (inner1 inner2 : Dict Fuel)
    (cls : String) (wv m old : ℚ)
    (hw : Dict.find? wgts cls = some wv)
    (hnd : (wgts.map Prod.fst).Nodup)
    (hcls2 : readMoist inner2 cls = m)
    (hcls1 : readMoist inner1 cls = old)
    (hoth : ∀ j, j ≠ cls → readMoist inner2 j = readMoist inner1 j) :
    catMoistVal wgts inner2 = catMoistVal wgts inner1 + wv * (m - old) := by
  induction wgts with
  | nil => simp [Dict.find?] at hw
  | cons jv rest ih =>
    rw [Dict.find?] at hw
    simp only [List.map_cons, List.nodup_cons] at hnd
    rw [catMoistVal, catMoistVal, List.map_cons, List.map_cons,
      List.sum_cons, List.sum_cons]
    by_cases hj : jv.1 = cls
    · simp only [hj, if_true, Option.some.injEq] at hw
      have htail : rest.map (fun jv => jv.2 * readMoist inner2 jv.1) =
          rest.map (fun jv => jv.2 * readMoist inner1 jv.1) := by
        apply List.map_congr_left
        intro b hb
        have hbne : b.1 ≠ cls := by
          intro hc
          have : jv.1 ∈ List.map Prod.fst rest := by
            rw [hj, ← hc]
            exact List.mem_map_of_mem _ hb
          exact hnd.1 this
        rw [hoth b.1 hbne]
      rw [htail, hj, hcls2, hcls1, ← hw]
      have hsum : catMoistVal rest inner2 = catMoistVal rest inner1 := by
        rw [catMoistVal, catMoistVal, htail]
      ring
    · simp only [hj, if_false] at hw
      have hrec := ih hw hnd.2
      rw [catMoistVal, catMoistVal] at hrec
      rw [hrec, hoth jv.1 hj]
      ring

/-- A weighting fixed point: recomputing the weighting parameters of a
complex that already stores them is the identity. -/
theorem calcWeightingParameters_fix (c0 : RothermelFuelComplex)
    (r : Dict (Dict ℚ) × Dict ℚ × ℚ) (w : Dict ℚ × Dict (Dict ℚ))
    (hm : calcMSA c0.fuelParameters ([], [], 0) = .ok r)
    (hwt : calcWeights r.2.1 r.2.2 r.1 ([], []) = .ok w)
    (h1 : c0.classAreas = r.1) (h2 : c0.categoryAreas = r.2.1)
    (h3 : c0.totalArea = r.2.2) (h4 : c0.categoryWeighting = w.1)
    (h5 : c0.classWeighting = w.2) :
    RothermelFuelComplex.calcWeightingParameters c0 = .ok c0 := by
  rw [RothermelFuelComplex.calcWeightingParameters]
  simp only [hm, hwt, Bind.bind, Except.bind]
  rw [← h1, ← h2, ← h3, ← h4, ← h5]

/-- C9: updating one particle's fuel moisture (σ and loading
unchanged) on a computed well-formed complex and recomputing succeeds,
leaves every class weight and every category weight equal to its
previous value, and changes the per-category fuel-moisture aggregate
whenever the new moisture differs and that particle's class weight is
non-zero (the aggregate shifts by exactly weight × moisture change,
which then feeds the reaction intensity of a subsequent evaluation). -/
theorem c9_moisture_frame (p : Prims) (strat : FuelStrategy)
    (A : Prims → ℚ → ℚ) (c c1 c2 : RothermelFuelComplex)
    (cat cls : String) (m : ℚ) (f : Fuel) (wv : ℚ)
    (hWF : c.WF)
    (h1 : RothermelFuelComplex.compute p strat A c = .ok c1)
    (h2 : RothermelFuelComplex.setFuelMoisture c1 cat cls m = .ok c2)
    (hf : (Dict.find? c1.fuelParameters cat).bind
      (fun d => Dict.find? d cls) = some f)
    (hwv : (Dict.find? c1.classWeighting cat).bind
      (fun d => Dict.find? d cls) = some wv) :
    ∃ c3, RothermelFuelComplex.compute p strat A c2 = .ok c3 ∧
      c3.classWeighting = c1.classWeighting ∧
      c3.categoryWeighting = c1.categoryWeighting ∧
      (m ≠ f.fuelMoisture → wv ≠ 0 →
        Dict.find? c3.fuelMoisture cat ≠ Dict.find? c1.fuelMoisture cat) := by
  obtain ⟨hnd, hinner⟩ := hWF
  rw [RothermelFuelComplex.compute] at h1
  cases hw : RothermelFuelComplex.calcWeightingParameters c with
  | error e =>
    rw [hw] at h1
    simp [Bind.bind, Except.bind] at h1
  | ok c1a =>
    rw [hw] at h1
    simp only [Bind.bind, Except.bind] at h1
    rw [RothermelFuelComplex.calcWeightingParameters] at hw
    cases hm : calcMSA c.fuelParameters ([], [], 0) with
    | error e =>
      rw [hm] at hw
      simp [Bind.bind, Except.bind] at hw
    | ok r =>
      rw [hm] at hw
      simp only [Bind.bind, Except.bind] at hw
      cases hwt : calcWeights r.2.1 r.2.2 r.1 ([], []) with
      | error e =>
        rw [hwt] at hw
        simp at hw
      | ok w =>
        rw [hwt] at hw
        simp only at hw
        have hc1a := (Except.ok.inj hw).symm
        subst hc1a
        simp only [RothermelFuelComplex.aggregateIntoCategories,
          RothermelFuelComplex.aggregateIntoComplex,
          RothermelFuelComplex.setSigma] at h1
        by_cases hsig : (aggComplexSums w.1 w.2
            (netUpdAll strat w.1 w.2 c.fuelParameters)).1 ≤ 0
        · rw [if_pos hsig] at h1
          simp at h1
        · rw [if_neg hsig] at h1
          have hc1 := (Except.ok.inj h1).symm
          rw [hc1] at h2 hf hwv
          rw [hc1]
          simp only [RothermelFuelComplex.setFuelMoisture] at h2
          cases hfc : Dict.find? (netUpdAll strat w.1 w.2 c.fuelParameters) cat with
          | none =>
            rw [hfc] at h2
            simp at h2
          | some inner =>
            rw [hfc] at h2
            simp only at h2
            cases hfcls : Dict.find? inner cls with
            | none =>
              rw [hfcls] at h2
              simp at h2
            | some pOld =>
              rw [hfcls] at h2
              simp only at h2
              have hc2 := (Except.ok.inj h2).symm
              rw [hc2]
              have hf2 : Dict.find? inner cls = some f := by
                have hf3 : (Dict.find? (netUpdAll strat w.1 w.2 c.fuelParameters)
                    cat).bind (fun d => Dict.find? d cls) = some f := hf
                rw [hfc] at hf3
                simpa [Option.bind] using hf3
              have hwv3 : (Dict.find? w.2 cat).bind
                  (fun d => Dict.find? d cls) = some wv := hwv
              cases hdw : Dict.find? w.2 cat with
              | none =>
                rw [hdw] at hwv3
                simp [Option.bind] at hwv3
              | some dwv =>
                rw [hdw] at hwv3
                simp only [Option.bind] at hwv3
                obtain ⟨hca, hcata, htot⟩ := calcMSA_ok c.fuelParameters [] [] 0
                  r.1 r.2.1 r.2.2 hm hnd hinner (fun _ _ => rfl) (fun _ _ => rfl)
                simp only [List.nil_append] at hca hcata
                have hndca : (r.1.map Prod.fst).Nodup := by
                  rw [hca, Dict.keys_map_key]
                  exact hnd
                have hinnerca : ∀ kv ∈ r.1, (kv.2.map Prod.fst).Nodup := by
                  intro kv hkv
                  rw [hca] at hkv
                  obtain ⟨kv0, hkv0, rfl⟩ := List.mem_map.mp hkv
                  show ((Dict.projD areaVal kv0.2).map Prod.fst).Nodup
                  rw [Dict.projD, Dict.keys_map_key]
                  exact hinner kv0 hkv0
                obtain ⟨hcw, hclw, _⟩ := calcWeights_ok r.2.1 r.2.2 r.1 [] []
                  w.1 w.2 hwt hndca hinnerca (fun _ _ => rfl) (fun _ _ => rfl)
                simp only [List.nil_append] at hcw hclw
                have hndw1 : (w.1.map Prod.fst).Nodup := by
                  rw [hcw, Dict.keys_map_fst]
                  exact hndca
                have hgeoU : Dict.projD (Dict.projD geoProj)
                    (netUpdAll strat w.1 w.2 c.fuelParameters) =
                    Dict.projD (Dict.projD geoProj) c.fuelParameters :=
                  netUpdAll_projD strat geoProj (fun f => rfl) w.1 w.2 c.fuelParameters
                have hgeo2 : Dict.projD (Dict.projD geoProj)
                    (Dict.modify1 (netUpdAll strat w.1 w.2 c.fuelParameters) cat
                      (fun d => Dict.modify1 d cls (Fuel.setFuelMoisture m none))) =
                    Dict.projD (Dict.projD geoProj) c.fuelParameters := by
                  rw [Dict.projD_modify1 (Dict.projD geoProj)
                    (fun d => Dict.modify1 d cls (Fuel.setFuelMoisture m none))
                    (fun x => Dict.projD_modify1 geoProj
                      (Fuel.setFuelMoisture m none) (fun g => rfl) x cls) _ cat]
                  exact hgeoU
                have hm2 : calcMSA (Dict.modify1
                    (netUpdAll strat w.1 w.2 c.fuelParameters) cat
                    (fun d => Dict.modify1 d cls (Fuel.setFuelMoisture m none)))
                    ([], [], 0) = .ok r := by
                  rw [calcMSA_congr _ c.fuelParameters _ hgeo2]
                  exact hm
                have hm2' : calcMSA c2.fuelParameters ([], [], 0) = .ok r := by
                  rw [hc2]
                  exact hm2
                have hwp2 := calcWeightingParameters_fix c2 r w hm2' hwt
                  (by rw [hc2]) (by rw [hc2]) (by rw [hc2]) (by rw [hc2]) (by rw [hc2])
                rw [hc2] at hwp2
                rw [RothermelFuelComplex.compute]
                simp only [hwp2, Bind.bind, Except.bind,
                  RothermelFuelComplex.aggregateIntoCategories,
                  RothermelFuelComplex.aggregateIntoComplex,
                  RothermelFuelComplex.setSigma]
                have hsig2eq : aggComplexSums w.1 w.2 (netUpdAll strat w.1 w.2
                    (Dict.modify1 (netUpdAll strat w.1 w.2 c.fuelParameters) cat
                      (fun d => Dict.modify1 d cls (Fuel.setFuelMoisture m none)))) =
                    aggComplexSums w.1 w.2
                      (netUpdAll strat w.1 w.2 c.fuelParameters) := by
                  apply aggComplexSums_congr
                  simp only [netUpdAll_projD strat geoProj (fun g => rfl)]
                  exact hgeo2
                simp only [hsig2eq, if_neg hsig]
                refine ⟨_, rfl, rfl, rfl, ?_⟩
                intro hm_ne hwv_ne
                have hmoist_pt : ∀ (catk j : String),
                    readMoist ((Dict.find? (netUpdAll strat w.1 w.2
                      c.fuelParameters) catk).getD []) j =
                    readMoist ((Dict.find? c.fuelParameters catk).getD []) j := by
                  intro catk j
                  have hpp := netUpdAll_projD strat aggProj (fun g => rfl)
                    w.1 w.2 c.fuelParameters
                  have hinr := projD_read_eq (Dict.projD aggProj) [] _ _ hpp catk
                  have hj := projD_read_eq aggProj defaultFuel _ _ hinr j
                  exact congrArg (fun t => t.2.2.2.2) hj
                have hfmod : Dict.find? (Dict.modify1
                    (netUpdAll strat w.1 w.2 c.fuelParameters) cat
                    (fun d => Dict.modify1 d cls (Fuel.setFuelMoisture m none))) cat =
                    some (Dict.modify1 inner cls (Fuel.setFuelMoisture m none)) := by
                  rw [Dict.find?_modify1_self, hfc]
                  rfl
                show Dict.find? (aggCats strat w.1 w.2 (Dict.modify1
                    (netUpdAll strat w.1 w.2 c.fuelParameters) cat
                    (fun d => Dict.modify1 d cls
                      (Fuel.setFuelMoisture m none)))).2.2.2 cat ≠
                  Dict.find? (aggCats strat w.1 w.2 c.fuelParameters).2.2.2 cat
                rw [aggCats_fm strat w.1 w.2 _ hndw1,
                  aggCats_fm strat w.1 w.2 _ hndw1]
                have hkeysw1 : w.1.map Prod.fst = c.fuelParameters.map Prod.fst := by
                  rw [hcw, Dict.keys_map_fst, hca, Dict.keys_map_key]
                have hkeysfpU : (netUpdAll strat w.1 w.2
                    c.fuelParameters).map Prod.fst = c.fuelParameters.map Prod.fst := by
                  rw [netUpdAll, Dict.keys_applyAllU]
                have hcatmem : cat ∈ w.1.map Prod.fst := by
                  rw [hkeysw1, ← hkeysfpU]
                  exact List.mem_map_of_mem Prod.fst (Dict.find?_some_mem hfc)
                obtain ⟨kv0, hkv0, hkv0eq⟩ := List.mem_map.mp hcatmem
                have hfind2 : Dict.find? (w.1.map (fun kv => (kv.1,
                    catMoistVal ((Dict.find? w.2 kv.1).getD [])
                      ((Dict.find? (Dict.modify1 (netUpdAll strat w.1 w.2
                        c.fuelParameters) cat (fun d => Dict.modify1 d cls
                          (Fuel.setFuelMoisture m none))) kv.1).getD [])))) cat =
                    some (catMoistVal ((Dict.find? w.2 cat).getD [])
                      ((Dict.find? (Dict.modify1 (netUpdAll strat w.1 w.2
                        c.fuelParameters) cat (fun d => Dict.modify1 d cls
                          (Fuel.setFuelMoisture m none))) cat).getD [])) := by
                  apply Dict.find?_eq_of_mem_nodup
                  · show ((w.1.map _).map Prod.fst).Nodup
                    rw [Dict.keys_map_fst]
                    exact hndw1
                  · have hmm := List.mem_map_of_mem (fun kv => (kv.1,
                      catMoistVal ((Dict.find? w.2 kv.1).getD [])
                        ((Dict.find? (Dict.modify1 (netUpdAll strat w.1 w.2
                          c.fuelParameters) cat (fun d => Dict.modify1 d cls
                            (Fuel.setFuelMoisture m none))) kv.1).getD []))) hkv0
                    simp only at hmm
                    rw [hkv0eq] at hmm
                    exact hmm
                have hfind1 : Dict.find? (w.1.map (fun kv => (kv.1,
                    catMoistVal ((Dict.find? w.2 kv.1).getD [])
                      ((Dict.find? c.fuelParameters kv.1).getD [])))) cat =
                    some (catMoistVal ((Dict.find? w.2 cat).getD [])
                      ((Dict.find? c.fuelParameters cat).getD [])) := by
                  apply Dict.find?_eq_of_mem_nodup
                  · show ((w.1.map _).map Prod.fst).Nodup
                    rw [Dict.keys_map_fst]
                    exact hndw1
                  · have hmm := List.mem_map_of_mem (fun kv => (kv.1,
                      catMoistVal ((Dict.find? w.2 kv.1).getD [])
                        ((Dict.find? c.fuelParameters kv.1).getD []))) hkv0
                    simp only at hmm
                    rw [hkv0eq] at hmm
                    exact hmm
                rw [hfind2, hfind1]
                have hnddwv : (dwv.map Prod.fst).Nodup := by
                  have hmem := Dict.find?_some_mem hdw
                  rw [hclw] at hmem
                  obtain ⟨kv1, hkv1, hkv1eq⟩ := List.mem_map.mp hmem
                  have hdwv : dwv = kv1.2.map (fun jv =>
                      (jv.1, jv.2 / (Dict.find? r.2.1 kv1.1).getD 0)) :=
                    (congrArg Prod.snd hkv1eq).symm
                  rw [hdwv, List.map_map]
                  exact hinnerca kv1 hkv1
                have hupd : catMoistVal ((Dict.find? w.2 cat).getD [])
                    ((Dict.find? (Dict.modify1 (netUpdAll strat w.1 w.2
                      c.fuelParameters) cat (fun d => Dict.modify1 d cls
                        (Fuel.setFuelMoisture m none))) cat).getD []) =
                    catMoistVal ((Dict.find? w.2 cat).getD [])
                      ((Dict.find? c.fuelParameters cat).getD []) +
                    wv * (m - f.fuelMoisture) := by
                  rw [hdw, Option.getD_some, hfmod, Option.getD_some]
                  apply catMoistVal_update dwv _ _ cls wv m f.fuelMoisture
                    hwv3 hnddwv
                  · rw [readMoist, Dict.find?_modify1_self, hf2]
                    rfl
                  · rw [← hmoist_pt cat cls, hfc, Option.getD_some, readMoist, hf2]
                    rfl
                  · intro j hj
                    rw [readMoist, Dict.find?_modify1_ne _ _ _ _ hj]
                    have : readMoist inner j =
                        readMoist ((Dict.find? c.fuelParameters cat).getD []) j := by
                      rw [← hmoist_pt cat j, hfc, Option.getD_some]
                    exact this
                intro hcontra
                rw [Option.some.injEq] at hcontra
                rw [hupd] at hcontra
                have hz : wv * (m - f.fuelMoisture) = 0 := by linarith
                rcases mul_eq_zero.mp hz with h0 | h0
                · exact hwv_ne h0
                · exact hm_ne (by linarith)

/-- C9 witness: on the computed demo complex, raising the dead 1-hr
moisture from 0.06 to 0.1 and recomputing keeps all weights and changes
the dead-category moisture aggregate. -/
theorem c9_witness :
    demoComplex.WF ∧
    (1/10 : ℚ) ≠ ({ demoParticleRec with
      netFuelLoading := 68/2111 } : Fuel).fuelMoisture ∧
    ∃ c3, RothermelFuelComplex.compute onePrims rothermelStrategy
        RothermelExponentA demoMoistened = .ok c3 ∧
      c3.classWeighting = demoComputed.classWeighting ∧
      c3.categoryWeighting = demoComputed.categoryWeighting ∧
      Dict.find? c3.fuelMoisture DEAD ≠
        Dict.find? demoComputed.fuelMoisture DEAD := by
  have hwf : demoComplex.WF := by
    constructor
    · decide
    · intro kv hkv
      simp [demoComplex, RothermelFuelComplex.setFuelParams,
        RothermelFuelComplex.setExtMoisture, RothermelFuelComplex.setDepth,
        Dict.insert, Dict.find?] at hkv
      simp [hkv, Dict.keys]
  have hne : (1/10 : ℚ) ≠ ({ demoParticleRec with
      netFuelLoading := 68/2111 } : Fuel).fuelMoisture := by
    norm_num [demoParticleRec]
  refine ⟨hwf, hne, ?_⟩
  obtain ⟨c3, hok, hclw, hcatw, hmoist⟩ := c9_moisture_frame onePrims
    rothermelStrategy RothermelExponentA demoComplex demoComputed demoMoistened
    DEAD ONEHR (1/10) ({ demoParticleRec with netFuelLoading := 68/2111 }) 1
    hwf demo_compute demo_setMoisture (by rfl) (by rfl)
  exact ⟨c3, hok, hclw, hcatw, hmoist hne one_ne_zero⟩
